import Mathlib

/-!
Verification of the skynet-mysky seed-phrase codec, permission-gated signing
gateway, session logout and portal-recipient normalization, as a shallow
embedding of the TypeScript sources.

Conventions of the embedding:
* JS byte arrays (`Uint8Array`) are `List Nat` with values below 256;
  `Uint16Array` entries are `Nat` reduced mod 2^16 where the code stores them.
* JS strings in the codec are `List Char` (JS strings are char sequences;
  all dictionary words are ASCII).  Error messages are Lean `String`s.
* The word dictionary (`src/dictionary.ts`, not part of the provided sources)
  and the sha512 hash (tweetnacl) are parameters, constrained by the
  documented invariants where a claim needs them.
* Fallible code returns `Option`/`Except`; observable side effects of the
  gateway are modelled as explicit event traces.
-/

set_option maxRecDepth 10000
set_option linter.unnecessarySeqFocus false
set_option linter.unusedVariables false

-- ==========================================================================
-- Constants from src/seed.ts
-- ==========================================================================

def SEED_WORDS_LENGTH : Nat := 13

def CHECKSUM_WORDS_LENGTH : Nat := 2

def PHRASE_LENGTH : Nat := 15

def SEED_LENGTH : Nat := 16

-- ==========================================================================
-- Bit-stream helpers (specification side, used to state the packing claims)
-- ==========================================================================

/-- The value of a bit list read most-significant-bit first. -/
def bitsToNat : List Bool → Nat
  | [] => 0
  | b :: rest => (if b then 1 else 0) * 2 ^ rest.length + bitsToNat rest

/-- The `n` low bits of `word`, most-significant first.  The test for bit
`n - j - 1` is written exactly as the source tests it:
`(word & (1 << (wordBits - j - 1))) > 0`. -/
def wordToBits (word n : Nat) : List Bool :=
  (List.range n).map (fun j => decide (0 < word &&& (1 <<< (n - j - 1))))

/-- The 8 bits of a byte, most-significant first. -/
def byteToBits (b : Nat) : List Bool :=
  wordToBits b 8

/-- A byte list as a most-significant-bit-first bit stream. -/
def bytesToBits (bytes : List Nat) : List Bool :=
  (bytes.map byteToBits).flatten

/-- Pack a bit stream into bytes, 8 bits per byte, most-significant first. -/
def bitsToBytes (bits : List Bool) : List Nat :=
  match bits with
  | [] => []
  | b :: rest => bitsToNat ((b :: rest).take 8) :: bitsToBytes ((b :: rest).drop 8)
  termination_by bits.length

-- ==========================================================================
-- hashToChecksumWords (scripts/ui.ts lines 256-265)
-- ==========================================================================

/-- Embeds `hashToChecksumWords`.  The two results are stored into a
`Uint16Array`, hence the final reduction mod 2^16 (a no-op for a real
digest, whose bytes are below 256). -/
def hashToChecksumWords (h : List Nat) : List Nat :=
  let word1 := (h.getD 0 0) <<< 8
  let word1 := word1 + h.getD 1 0
  let word1 := word1 >>> 6
  let word2 := (h.getD 1 0) <<< 10
  let word2 := word2 &&& 0xffff
  let word2 := word2 + ((h.getD 2 0) <<< 2)
  let word2 := word2 >>> 6
  [word1 % 65536, word2 % 65536]

-- ==========================================================================
-- seedWordsToSeed (scripts/ui.ts lines 270-304)
-- ==========================================================================

/-- The mutable state of the packing loop: the byte buffer and the cursor
(`curByte`, `curBit`). -/
structure PackState where
  bytes : List Nat
  curByte : Nat
  curBit : Nat
deriving DecidableEq

/-- One iteration of the inner bit loop of `seedWordsToSeed`:
`bytes[curByte] |= 1 << (8 - curBit - 1)` when the bit is set, then
`curBit += 1; if (curBit >= 8) { curByte += 1; curBit = 0 }`. -/
def packBit (s : PackState) (bitSet : Bool) : PackState :=
  let bytes := if bitSet then
      s.bytes.set s.curByte ((s.bytes.getD s.curByte 0) ||| (1 <<< (8 - s.curBit - 1)))
    else s.bytes
  if 8 ≤ s.curBit + 1 then ⟨bytes, s.curByte + 1, 0⟩ else ⟨bytes, s.curByte, s.curBit + 1⟩

/-- The loop over the bits of one 10- or 8-bit word, testing
`(word & (1 << (wordBits - j - 1))) > 0` for each `j`. -/
def packWord (s : PackState) (word wordBits : Nat) : PackState :=
  (List.range wordBits).foldl
    (fun st j => packBit st (decide (0 < word &&& (1 <<< (wordBits - j - 1))))) s

/-- Fold a whole bit list through `packBit` (specification side). -/
def packBits (s : PackState) (bits : List Bool) : PackState :=
  bits.foldl packBit s

/-- The main path of `seedWordsToSeed` (reached when there are 13 words):
pack each word, 10 bits per word and 8 for the last, into 16 zero bytes. -/
def seedWordsToSeedCore (seedWords : List Nat) : List Nat :=
  ((List.range SEED_WORDS_LENGTH).foldl
    (fun st i => packWord st (seedWords.getD i 0)
      (if i = SEED_WORDS_LENGTH - 1 then 8 else 10))
    ⟨List.replicate SEED_LENGTH 0, 0, 0⟩).bytes

/-- Embeds `seedWordsToSeed`; `none` mirrors the length-check throw. -/
def seedWordsToSeed (seedWords : List Nat) : Option (List Nat) :=
  if seedWords.length ≠ SEED_WORDS_LENGTH then none
  else some (seedWordsToSeedCore seedWords)

/-- The concatenated word bit groups, 10 bits per word and 8 for the last
(specification side: the "concatenated word bits in order" of the claim). -/
def seedWordsBits (seedWords : List Nat) : List Bool :=
  ((List.range SEED_WORDS_LENGTH).map
    (fun i => wordToBits (seedWords.getD i 0)
      (if i = SEED_WORDS_LENGTH - 1 then 8 else 10))).flatten

/-- Proof-side accumulator describing how the packing loop ors bits into the
byte under the cursor. -/
def orBits (c : Nat) : List Bool → Nat
  | [] => c
  | b :: rest => orBits (if b then c ||| (1 <<< rest.length) else c) rest

-- ==========================================================================
-- Phrase strings (scripts/ui.ts; JS strings as character lists)
-- ==========================================================================

/-- A JS string as a character list. -/
abbrev Wrd := List Char

/-- Lexicographic comparison of JS strings by character code
(JS `<` / `>` on strings). -/
def strLt : List Char → List Char → Bool
  | [], [] => false
  | [], _ :: _ => true
  | _ :: _, [] => false
  | a :: as, b :: bs =>
    if a.toNat < b.toNat then true else if b.toNat < a.toNat then false else strLt as bs

/-- The 3-letter word head used throughout validation (`word.slice(0, 3)`). -/
def prefix3 (w : Wrd) : Wrd := w.take 3

/-- JS whitespace, for `trim` (the characters relevant to this codebase). -/
def isWhitespaceChar (c : Char) : Bool :=
  c = ' ' || c = '\t' || c = '\n' || c = '\r'

/-- `String.prototype.trim`. -/
def trimChars (s : List Char) : List Char :=
  ((s.dropWhile isWhitespaceChar).reverse.dropWhile isWhitespaceChar).reverse

/-- `String.prototype.toLowerCase` (the words here are ASCII). -/
def toLowerStr (s : List Char) : List Char := s.map Char.toLower

/-- Modelled from the spec: `removeAdjacentChars` of the external
`skynet-mysky-utils` package — "Remove duplicate adjacent spaces", i.e.
collapse runs of the given character to one occurrence. -/
def removeAdjacentChars (s : List Char) (c : Char) : List Char :=
  match s with
  | [] => []
  | [a] => [a]
  | a :: b :: rest =>
    if a = c ∧ b = c then removeAdjacentChars (b :: rest) c
    else a :: removeAdjacentChars (b :: rest) c

/-- Embeds `sanitizePhrase`:
`removeAdjacentChars(phrase.trim().toLowerCase(), " ")`. -/
def sanitizePhrase (phrase : List Char) : List Char :=
  removeAdjacentChars (toLowerStr (trimChars phrase)) ' '

/-- JS `str.split(sep)` for a single-character separator. -/
def splitOnChar (s : List Char) (c : Char) : List (List Char) :=
  match s with
  | [] => [[]]
  | a :: rest =>
    match splitOnChar rest c with
    | [] => [[]]
    | w :: ws => if a = c then [] :: w :: ws else (a :: w) :: ws

/-- JS `arr.join(sep)` for a single-character separator. -/
def joinSep (c : Char) : List Wrd → List Char
  | [] => []
  | [w] => w
  | w :: ws => w ++ c :: joinSep c ws

-- ==========================================================================
-- The dictionary scan of validatePhrase (scripts/ui.ts lines 184-206)
-- ==========================================================================

/-- The inner dictionary scan of `validatePhrase`, from entry `j` up to
`bound`: return the first entry whose 3-letter head equals `p`, breaking out
early once a lexicographically greater head is reached. -/
def findPrefixFrom (dict : List Wrd) (p : Wrd) (bound : Nat) (j : Nat) : Option Nat :=
  if j < bound then
    let curPrefix := prefix3 (dict.getD j [])
    if curPrefix = p then some j
    else if strLt p curPrefix then none
    else findPrefixFrom dict p bound (j + 1)
  else none
  termination_by bound - j

/-- The scan as the source runs it, from entry 0 (`found` of -1 is `none`). -/
def findPrefixIdx (dict : List Wrd) (p : Wrd) (bound : Nat) : Option Nat :=
  findPrefixFrom dict p bound 0

/-- The exhaustive reference scan the spec describes: the first entry below
`bound` sharing the prefix, with no early exit. -/
def findPrefixSpecFrom (dict : List Wrd) (p : Wrd) (bound : Nat) (j : Nat) : Option Nat :=
  if j < bound then
    if prefix3 (dict.getD j []) = p then some j
    else findPrefixSpecFrom dict p bound (j + 1)
  else none
  termination_by bound - j

/-- The exhaustive reference scan from entry 0. -/
def findPrefixSpecIdx (dict : List Wrd) (p : Wrd) (bound : Nat) : Option Nat :=
  findPrefixSpecFrom dict p bound 0

-- ==========================================================================
-- validatePhrase and generatePhrase (scripts/ui.ts lines 134-223)
-- ==========================================================================

/-- "Phrase must be 15 words long, was n". -/
def phraseLenError (n : Nat) : String :=
  "Phrase must be 15 words long, was " ++ toString n

/-- "Word i+1 is not at least 3 letters long". -/
def wordLenError (i : Nat) : String :=
  "Word " ++ toString (i + 1) ++ " is not at least 3 letters long"

/-- The unrecognized-prefix error for words other than the 13th. -/
def unknownPrefixError (p : Wrd) (i : Nat) : String :=
  "Unrecognized prefix \"" ++ String.mk p ++ "\" at word " ++ toString (i + 1)
    ++ ", not found in dictionary"

/-- The special error for the 13th word. -/
def first256Error (i : Nat) : String :=
  "Prefix for word " ++ toString (i + 1)
    ++ " must be found in the first 256 words of the dictionary"

/-- The checksum-mismatch error. -/
def checksumWordError (w : Wrd) : String :=
  "Word \"" ++ String.mk w ++ "\" is not a valid checksum for the seed"

/-- The per-word loop of `validatePhrase` over all 15 phrase words.  `i` is
the running index and `seedWords` the scan results found so far; the JS
`seedWords[i] = found` on a `Uint16Array(13)` silently drops writes at index
13 and 14, modelled by appending only while `i < 13`. -/
def validateLoop (dict : List Wrd) : List Wrd → Nat → List Nat → Except String (List Nat)
  | [], _, seedWords => .ok seedWords
  | word :: rest, i, seedWords =>
    if word.length < 3 then .error (wordLenError i)
    else
      let p := prefix3 word
      let bound := if i = 12 then 256 else dict.length
      match findPrefixIdx dict p bound with
      | none =>
        if i = 12 then .error (first256Error i) else .error (unknownPrefixError p i)
      | some found =>
        validateLoop dict rest (i + 1)
          (if i < SEED_WORDS_LENGTH then seedWords ++ [found] else seedWords)

/-- Embeds `generateChecksumWordsFromSeedWords`, parameterized by the sha512
digest function (tweetnacl `hash`); `none` mirrors the length-check throw. -/
def generateChecksumWordsFromSeedWords (hashFn : List Nat → List Nat)
    (seedWords : List Nat) : Option (List Nat) :=
  if seedWords.length ≠ SEED_WORDS_LENGTH then none
  else some (hashToChecksumWords (hashFn (seedWordsToSeedCore seedWords)))

/-- The checksum stage of `validatePhrase` (scripts/ui.ts lines 213-222):
recompute the two checksum words from the recovered seed words and compare
dictionary prefixes against the supplied 14th and 15th words; the source's
2-iteration loop is unrolled.  The `none` branch mirrors the (unreachable)
length-check throw: the loop always accumulates 13 seed words when 15
phrase words pass. -/
def validateChecksum (dict : List Wrd) (hashFn : List Nat → List Nat)
    (phraseWords : List Wrd) (seedWords : List Nat) : Bool × String × Option (List Nat) :=
  if seedWords.length ≠ SEED_WORDS_LENGTH then
    (false, "Input seed was not of length 13", none)
  else
    let checksumWords := hashToChecksumWords (hashFn (seedWordsToSeedCore seedWords))
    let w13 := phraseWords.getD (0 + SEED_WORDS_LENGTH) []
    let w14 := phraseWords.getD (1 + SEED_WORDS_LENGTH) []
    if prefix3 w13 ≠ prefix3 (dict.getD (checksumWords.getD 0 0) []) then
      (false, checksumWordError w13, none)
    else if prefix3 w14 ≠ prefix3 (dict.getD (checksumWords.getD 1 0) []) then
      (false, checksumWordError w14, none)
    else
      (true, "", some (seedWordsToSeedCore seedWords))

/-- Embeds `validatePhrase` (scripts/ui.ts lines 168-223): the
`[valid, error, seed]` result triple. -/
def validatePhrase (dict : List Wrd) (hashFn : List Nat → List Nat)
    (phrase : List Char) : Bool × String × Option (List Nat) :=
  let phrase := sanitizePhrase phrase
  let phraseWords := splitOnChar phrase ' '
  if phraseWords.length ≠ PHRASE_LENGTH then
    (false, phraseLenError phraseWords.length, none)
  else
    match validateLoop dict phraseWords 0 [] with
    | .error e => (false, e, none)
    | .ok seedWords => validateChecksum dict hashFn phraseWords seedWords

/-- Embeds the deterministic part of `generatePhrase`: the
`crypto.getRandomValues` draw is the parameter `randomWords` (13 `Uint16`
values), reduced mod 2^10 (mod 2^8 for the 13th) exactly as the source does,
mapped through the dictionary together with the two checksum words from
`generateChecksumWordsFromSeedWords` (its length guard inlined, as in
`validateChecksum`), and joined with single spaces. -/
def generatePhrase (dict : List Wrd) (hashFn : List Nat → List Nat)
    (randomWords : List Nat) : Option (List Char) :=
  let seedWords := (List.range SEED_WORDS_LENGTH).map
    (fun i => (randomWords.getD i 0) % (1 <<< (if i = 12 then 8 else 10)))
  if seedWords.length ≠ SEED_WORDS_LENGTH then none
  else
    let checksumWords := hashToChecksumWords (hashFn (seedWordsToSeedCore seedWords))
    let phraseWords := (List.range SEED_WORDS_LENGTH).map
        (fun i => dict.getD (seedWords.getD i 0) [])
      ++ (List.range CHECKSUM_WORDS_LENGTH).map
        (fun i => dict.getD (checksumWords.getD i 0) [])
    some (joinSep ' ' phraseWords)

/-- Modelled from the spec: the encoding of 16 entropy bytes as 13 seed words
(the bit groups of the packing contract read back from the byte stream).
`generatePhrase` itself starts from a random draw, so the claim's "encoding
entropy as a phrase" uses this inverse of `seedWordsToSeed`. -/
def seedToSeedWords (seed : List Nat) : List Nat :=
  (List.range SEED_WORDS_LENGTH).map
    (fun i => bitsToNat (((bytesToBits seed).drop (10 * i)).take
      (if i = SEED_WORDS_LENGTH - 1 then 8 else 10)))

/-- The documented dictionary invariants: 1024 words, each at least 3
characters, lowercase and whitespace-free, with strictly increasing
3-letter prefixes (sorted, and unique in the whole dictionary hence also in
its first 256 entries). -/
def DictValid (dict : List Wrd) : Prop :=
  dict.length = 1024 ∧
  (∀ w ∈ dict, 3 ≤ w.length ∧ ∀ c ∈ w, c.toLower = c ∧ isWhitespaceChar c = false) ∧
  List.Pairwise (fun a b => strLt (prefix3 a) (prefix3 b) = true) dict

/-- The documented digest contract (sha512): 64 bytes, each below 256. -/
def HashValid (hashFn : List Nat → List Nat) : Prop :=
  ∀ s, (hashFn s).length = 64 ∧ ∀ b ∈ hashFn s, b < 256

/-- Proof-side slicing of a bit stream into consecutive groups of the given
sizes. -/
def sliceStreams : List Nat → List Bool → List (List Bool)
  | [], _ => []
  | n :: rest, s => s.take n :: sliceStreams rest (s.drop n)

-- ==========================================================================
-- Concrete witnesses: a dictionary with the documented invariants, a digest
-- ==========================================================================

/-- The `i`-th word of the witness dictionary: `i` in base 26 over a-z. -/
def witnessWord (i : Nat) : Wrd :=
  [Char.ofNat (97 + i / 676), Char.ofNat (97 + i / 26 % 26), Char.ofNat (97 + i % 26)]

/-- A 1024-word dictionary satisfying `DictValid`. -/
def witnessDict : List Wrd := (List.range 1024).map witnessWord

/-- A trivial digest function satisfying `HashValid`. -/
def witnessHash : List Nat → List Nat := fun _ => List.replicate 64 0

-- ==========================================================================
-- The MySky gateway (src/mysky.ts): permissions, signing, path seeds
-- ==========================================================================

/-- The permission categories the gateway uses (from skynet-mysky-utils, as
mysky.ts uses them). -/
inductive PermCategory where
  | Discoverable
  | Hidden
  deriving DecidableEq

/-- The permission types the gateway uses (from skynet-mysky-utils). -/
inductive PermType where
  | Read
  | Write
  deriving DecidableEq

/-- The `Permission` object `MySky.checkPermission` builds (mysky.ts line
446): requestor (the referrer domain), path, category and type. -/
structure Permission where
  requestor : String
  path : String
  category : PermCategory
  permType : PermType
  deriving DecidableEq

/-- A registry entry as far as the gateway inspects it: the signing itself
is external (`signEntry` of skynet-js), only `dataKey` is compared. -/
structure RegistryEntry where
  dataKey : String
  data : List Nat
  revision : Nat
  deriving DecidableEq

/-- Observable effects of a gateway call, in order of occurrence: the remote
`checkPermissions` call to the permissions provider, the read of the stored
seed from local storage, key-pair derivation from the seed, production of a
signature, and derivation of an encrypted path seed. -/
inductive MySkyEvent where
  | checkedPermissions (perms : List Permission)
  | readSeed
  | derivedKeyPair
  | signedEntry
  | derivedPathSeed (path : String)
  deriving DecidableEq

/-- The gateway environment: the `MySky` instance fields and the external
functions its methods call, passed as parameters. `permResponse` returns the
provider response's `failedPermissions` list for a query; `discoverableTweak`
is `deriveDiscoverableFileTweak`, `encryptedTweak` is
`deriveEncryptedFileTweak`, `pathSeedOf` folds the sha512 root-path-seed
computation and `deriveEncryptedPathSeedForRoot` over the stored seed,
`privateKeyOf` is `genKeyPairFromSeed(.).privateKey`, `signWith` is
`signEntry`. -/
structure MySkyEnv where
  referrerDomain : String
  providerLoaded : Bool
  permResponse : List Permission → List Permission
  storedSeed : Option (List Nat)
  readable : Permission → String
  discoverableTweak : String → String
  encryptedTweak : String → String
  pathSeedOf : List Nat → String → Bool → String
  privateKeyOf : List Nat → List Nat
  signWith : List Nat → RegistryEntry → List Nat

/-- The `Permission` that `checkPermission` builds for a request. -/
def permOf (env : MySkyEnv) (path : String) (category : PermCategory)
    (permType : PermType) : Permission :=
  ⟨env.referrerDomain, path, category, permType⟩

/-- Embeds `MySky.checkPermission` (mysky.ts lines 439-456): require the
provider, build the permission, query the provider, and throw
`Permission was not granted: <readable>` when `failedPermissions` is
non-empty. The result pairs the `Except` outcome with the effect trace. -/
def checkPermission (env : MySkyEnv) (path : String) (category : PermCategory)
    (permType : PermType) : Except String Unit × List MySkyEvent :=
  if env.providerLoaded = false then
    (Except.error "Permissions provider not loaded", [])
  else
    if 0 < (env.permResponse [permOf env path category permType]).length then
      (Except.error ("Permission was not granted: "
          ++ env.readable (permOf env path category permType)),
        [MySkyEvent.checkedPermissions [permOf env path category permType]])
    else
      (Except.ok (), [MySkyEvent.checkedPermissions [permOf env path category permType]])

/-- Embeds `MySky.getEncryptedPathSeed` (mysky.ts lines 186-210): the
Hidden/Read permission check comes first; then the stored seed is read
(`User seed not found` when absent) and the child path seed is derived. The
stored seed is consulted only in the arms the permission check lets
through. -/
def getEncryptedPathSeed (env : MySkyEnv) (path : String) (isDirectory : Bool) :
    Except String String × List MySkyEvent :=
  match checkPermission env path PermCategory.Hidden PermType.Read, env.storedSeed with
  | (Except.error e, tr), _ => (Except.error e, tr)
  | (Except.ok _, tr), none =>
    (Except.error "User seed not found", tr ++ [MySkyEvent.readSeed])
  | (Except.ok _, tr), some s =>
    (Except.ok (env.pathSeedOf s path isDirectory),
      tr ++ [MySkyEvent.readSeed, MySkyEvent.derivedPathSeed path])

/-- Embeds `MySky.signRegistryEntryHelper` (mysky.ts lines 415-437): the
category/Write permission check comes first; then the seed is read, the key
pair derived and the entry signed. -/
def signRegistryEntryHelper (env : MySkyEnv) (entry : RegistryEntry) (path : String)
    (category : PermCategory) : Except String (List Nat) × List MySkyEvent :=
  match checkPermission env path category PermType.Write, env.storedSeed with
  | (Except.error e, tr), _ => (Except.error e, tr)
  | (Except.ok _, tr), none =>
    (Except.error "User seed not found", tr ++ [MySkyEvent.readSeed])
  | (Except.ok _, tr), some s =>
    (Except.ok (env.signWith (env.privateKeyOf s) entry),
      tr ++ [MySkyEvent.readSeed, MySkyEvent.derivedKeyPair, MySkyEvent.signedEntry])

/-- Embeds `MySky.signRegistryEntry` (mysky.ts lines 294-303): compare the
entry's data key against the discoverable tweak of the path before anything
else; on mismatch fail with no effect. -/
def signRegistryEntry (env : MySkyEnv) (entry : RegistryEntry) (path : String) :
    Except String (List Nat) × List MySkyEvent :=
  if entry.dataKey ≠ env.discoverableTweak path then
    (Except.error "Path does not match the data key in the registry entry.", [])
  else
    signRegistryEntryHelper env entry path PermCategory.Discoverable

/-- Embeds `MySky.signEncryptedRegistryEntry` (mysky.ts lines 305-316): it
first calls `getEncryptedPathSeed` (which performs the Hidden/Read
permission check), and only then compares the entry's data key against the
encrypted tweak of the returned path seed. -/
def signEncryptedRegistryEntry (env : MySkyEnv) (entry : RegistryEntry) (path : String) :
    Except String (List Nat) × List MySkyEvent :=
  match getEncryptedPathSeed env path false with
  | (Except.error e, tr) => (Except.error e, tr)
  | (Except.ok pathSeed, tr) =>
    if entry.dataKey ≠ env.encryptedTweak pathSeed then
      (Except.error "Path does not match the data key in the encrypted registry entry.", tr)
    else
      ((signRegistryEntryHelper env entry path PermCategory.Hidden).1,
        tr ++ (signRegistryEntryHelper env entry path PermCategory.Hidden).2)

/-- A granting environment holding a seed, with fixed tweak values, for
exercising the order of checks in the signing entry points. -/
def cexEnv : MySkyEnv where
  referrerDomain := "referrer.example"
  providerLoaded := true
  permResponse := fun _ => []
  storedSeed := some [7]
  readable := fun p => p.path
  discoverableTweak := fun _ => "disc-tweak"
  encryptedTweak := fun _ => "enc-tweak"
  pathSeedOf := fun _ _ _ => "path-seed"
  privateKeyOf := fun s => s
  signWith := fun _ _ => [1]

/-- A registry entry whose data key matches no tweak `cexEnv` derives. -/
def cexEntry : RegistryEntry := ⟨"other-key", [], 0⟩

/-- A denying environment: the provider reports every queried permission as
failed. -/
def denyEnv : MySkyEnv where
  referrerDomain := "referrer.example"
  providerLoaded := true
  permResponse := fun ps => ps
  storedSeed := some [7]
  readable := fun p => p.path
  discoverableTweak := fun _ => "disc-tweak"
  encryptedTweak := fun _ => "enc-tweak"
  pathSeedOf := fun _ _ _ => "path-seed"
  privateKeyOf := fun s => s
  signWith := fun _ _ => [1]

-- ==========================================================================
-- MySky.logout (scripts/ui revision, src/unnamed/part_001 lines 219-257)
-- ==========================================================================

/-- Observable effects of `MySky.logout`. -/
inductive LogoutEvent where
  | clearedSeed
  | serverLogoutAttempted
  | restoredExecuteRequest
  deriving DecidableEq

/-- The environment of `MySky.logout`: the stored seed; the outcome of the
server-side `logout` request — `none` for success, `some (status, msg)` for
a thrown `ExecuteRequestError` whose `responseStatus` is `status` and whose
rendering is `msg` —; and whether auto-relogin had replaced
`executeRequest`, leaving an `originalExecuteRequest` to restore. -/
structure LogoutEnv where
  storedSeed : Option (List Nat)
  serverResult : Option (Option Nat × String)
  hasOriginalExecuteRequest : Bool

/-- The aggregated error text thrown at the end of `logout`, with the JS
rendering of each accumulated error abstracted to its string. -/
def combinedLogoutError (errs : List String) : String :=
  (if 1 < errs.length then "Errors" else "Error") ++ " logging out: "
    ++ String.intercalate "," errs

/-- Embeds `MySky.logout` (part_001 lines 219-257): clear the stored seed
when present, else record `MySky user is already logged out`; always attempt
the server-side logout, recording its error unless the response status was
401; restore `executeRequest` when auto-relogin had replaced it; and throw
the aggregated errors at the end when any were collected. -/
def logoutModel (env : LogoutEnv) : Except String Unit × List LogoutEvent :=
  let seedStep : List String × List LogoutEvent :=
    match env.storedSeed with
    | some _ => ([], [LogoutEvent.clearedSeed])
    | none => (["MySky user is already logged out"], [])
  let serverStep : List String :=
    match env.serverResult with
    | none => []
    | some (status, msg) => if status = some 401 then [] else [msg]
  let restoreStep : List LogoutEvent :=
    if env.hasOriginalExecuteRequest then [LogoutEvent.restoredExecuteRequest] else []
  let errs := seedStep.1 ++ serverStep
  ((if 0 < errs.length then Except.error (combinedLogoutError errs) else Except.ok ()),
    seedStep.2 ++ [LogoutEvent.serverLogoutAttempted] ++ restoreStep)

-- ==========================================================================
-- getPortalRecipient (src/portal_account.ts lines 348-362)
-- ==========================================================================

/-- A URL as far as `getPortalRecipient` uses it (the browser `URL` API is
external): scheme and hostname, with `toString` of a URL with an empty path
rendering `scheme://hostname/`. -/
structure UrlModel where
  scheme : List Char
  hostname : List Char
  deriving DecidableEq

/-- `url.hostname.split(".").slice(-2).join(".")` (portal_account.ts line
359): the last two dot-separated labels. -/
def lastTwoLabels (hostname : List Char) : List Char :=
  joinSep '.' ((splitOnChar hostname '.').drop ((splitOnChar hostname '.').length - 2))

/-- `trimSuffix(str, "/")` of skynet-mysky-utils for the one-character
suffix: strip every trailing slash. -/
def trimTrailingSlashes (s : List Char) : List Char :=
  (s.reverse.dropWhile (fun c => c = '/')).reverse

/-- Embeds `getPortalRecipient` (portal_account.ts lines 355-362) over the
parsed URL: replace the hostname by its last two labels, render the URL and
strip the trailing slash. -/
def getPortalRecipient (u : UrlModel) : List Char :=
  trimTrailingSlashes (u.scheme ++ (':' :: '/' :: '/' :: []) ++ lastTwoLabels u.hostname ++ ['/'])

-- ==========================================================================
-- Theorems
-- ==========================================================================

theorem bitsToNat_lt (bits : List Bool) : bitsToNat bits < 2 ^ bits.length := by
  induction bits with
  | nil => simp [bitsToNat]
  | cons b rest ih =>
    simp only [bitsToNat, List.length_cons, pow_succ]
    have h2 : (0:Nat) < 2 ^ rest.length := Nat.pos_pow_of_pos _ (by norm_num)
    cases b <;> simp <;> omega

theorem bitsToNat_append (a b : List Bool) :
    bitsToNat (a ++ b) = bitsToNat a * 2 ^ b.length + bitsToNat b := by
  induction a with
  | nil => simp [bitsToNat]
  | cons x rest ih =>
    show (if x then 1 else 0) * 2 ^ (rest ++ b).length + bitsToNat (rest ++ b) = _
    rw [ih, List.length_append]
    show _ = ((if x then 1 else 0) * 2 ^ rest.length + bitsToNat rest) * 2 ^ b.length + bitsToNat b
    cases x <;> simp [pow_add] <;> ring

theorem bitsToNat_byteToBits : ∀ x : Nat, x < 256 → bitsToNat (byteToBits x) = x := by
  decide

theorem bitsToNat_byteTake2 : ∀ x : Nat, x < 256 →
    bitsToNat ((byteToBits x).take 2) = x / 64 := by
  decide

theorem bitsToNat_byteDrop2 : ∀ x : Nat, x < 256 →
    bitsToNat ((byteToBits x).drop 2) = x % 64 := by
  decide

theorem bitsToNat_byteTake4 : ∀ x : Nat, x < 256 →
    bitsToNat ((byteToBits x).take 4) = x / 16 := by
  decide

theorem shiftMask_eq : ∀ x : Nat, x < 256 → (x <<< 10) &&& 0xffff = (x % 64) <<< 10 := by
  decide

theorem byteToBits_length (b : Nat) : (byteToBits b).length = 8 := by
  simp [byteToBits, wordToBits]

/-- `hashToChecksumWords` extracts digest bits 0-9 and 10-19 (MSB-first),
so both results are below 1024. -/
theorem hashToChecksumWords_spec (h : List Nat) (hlen : h.length = 64)
    (hbytes : ∀ b ∈ h, b < 256) :
    hashToChecksumWords h =
      [bitsToNat ((bytesToBits h).take 10),
       bitsToNat (((bytesToBits h).drop 10).take 10)] ∧
    ∀ w ∈ hashToChecksumWords h, w < 1024 := by
  match h, hlen with
  | h0 :: h1 :: h2 :: rest, _ =>
    have hb0 : h0 < 256 := hbytes h0 (by simp)
    have hb1 : h1 < 256 := hbytes h1 (by simp)
    have hb2 : h2 < 256 := hbytes h2 (by simp)
    have w1 : bitsToNat (byteToBits h0 ++ (byteToBits h1).take 2) = h0 * 4 + h1 / 64 := by
      rw [bitsToNat_append, bitsToNat_byteToBits h0 hb0, bitsToNat_byteTake2 h1 hb1]
      have : ((byteToBits h1).take 2).length = 2 := by
        simp [byteToBits, wordToBits]
      rw [this]; ring
    have w2 : bitsToNat ((byteToBits h1).drop 2 ++ (byteToBits h2).take 4)
        = (h1 % 64) * 16 + h2 / 16 := by
      rw [bitsToNat_append, bitsToNat_byteDrop2 h1 hb1, bitsToNat_byteTake4 h2 hb2]
      have : ((byteToBits h2).take 4).length = 4 := by
        simp [byteToBits, wordToBits]
      rw [this]; ring
    have c1 : ((h0 <<< 8) + h1) >>> 6 % 65536 = h0 * 4 + h1 / 64 := by
      rw [Nat.shiftLeft_eq, Nat.shiftRight_eq_div_pow]
      norm_num; omega
    have c2 : (((h1 <<< 10) &&& 0xffff) + (h2 <<< 2)) >>> 6 % 65536
        = (h1 % 64) * 16 + h2 / 16 := by
      rw [shiftMask_eq h1 hb1, Nat.shiftLeft_eq, Nat.shiftLeft_eq,
        Nat.shiftRight_eq_div_pow]
      norm_num; omega
    have heval : hashToChecksumWords (h0 :: h1 :: h2 :: rest)
        = [h0 * 4 + h1 / 64, (h1 % 64) * 16 + h2 / 16] := by
      simp only [hashToChecksumWords, List.getD_cons_zero, List.getD_cons_succ]
      rw [c1, c2]
    constructor
    · rw [heval]
      have hsplit : bytesToBits (h0 :: h1 :: h2 :: rest)
          = byteToBits h0 ++ (byteToBits h1 ++ (byteToBits h2 ++ (rest.map byteToBits).flatten)) := by
        simp [bytesToBits]
      have htake : (bytesToBits (h0 :: h1 :: h2 :: rest)).take 10
          = byteToBits h0 ++ (byteToBits h1).take 2 := by
        rw [hsplit]
        rw [show (10:Nat) = (byteToBits h0).length + 2 by rw [byteToBits_length]]
        rw [List.take_append]
        rw [List.take_append_eq_append_take]
        rw [byteToBits_length]
        simp
      have hd10 : (bytesToBits (h0 :: h1 :: h2 :: rest)).drop 10
          = (byteToBits h1).drop 2 ++ (byteToBits h2 ++ (rest.map byteToBits).flatten) := by
        rw [hsplit]
        rw [show (10:Nat) = (byteToBits h0).length + 2 by rw [byteToBits_length]]
        rw [List.drop_append]
        rw [List.drop_append_eq_append_drop]
        rw [byteToBits_length]
        simp
      have hdt : ((byteToBits h1).drop 2 ++ (byteToBits h2 ++ (rest.map byteToBits).flatten)).take 10
          = (byteToBits h1).drop 2 ++ (byteToBits h2).take 4 := by
        rw [show (10:Nat) = ((byteToBits h1).drop 2).length + 4 by
          rw [List.length_drop, byteToBits_length]]
        rw [List.take_append]
        rw [List.take_append_eq_append_take]
        rw [byteToBits_length]
        simp
      rw [htake, hd10, hdt, w1, w2]
    · intro w hw
      rw [heval] at hw
      simp only [List.mem_cons, List.mem_singleton, List.not_mem_nil, or_false] at hw
      rcases hw with rfl | rfl <;> omega

theorem listGetD_mid (pre : List Nat) (c : Nat) (rest : List Nat) :
    (pre ++ c :: rest).getD pre.length 0 = c := by
  induction pre with
  | nil => rfl
  | cons x xs ih => simpa using ih

theorem listSet_mid (pre : List Nat) (c : Nat) (rest : List Nat) (v : Nat) :
    (pre ++ c :: rest).set pre.length v = pre ++ v :: rest := by
  induction pre with
  | nil => rfl
  | cons x xs ih => simp [ih]

theorem packBit_mid (pre : List Nat) (c : Nat) (rest : List Nat) (k : Nat) (b : Bool) :
    packBit ⟨pre ++ c :: rest, pre.length, k⟩ b
      = if 8 ≤ k + 1 then
          ⟨pre ++ (if b then c ||| (1 <<< (8 - k - 1)) else c) :: rest, pre.length + 1, 0⟩
        else
          ⟨pre ++ (if b then c ||| (1 <<< (8 - k - 1)) else c) :: rest, pre.length, k + 1⟩ := by
  simp only [packBit, listGetD_mid, listSet_mid]
  cases b <;> simp

theorem packBits_accum (bits : List Bool) : ∀ (c : Nat) (pre rest : List Nat),
    0 < bits.length → bits.length ≤ 8 →
    packBits ⟨pre ++ c :: rest, pre.length, 8 - bits.length⟩ bits
      = ⟨pre ++ orBits c bits :: rest, pre.length + 1, 0⟩ := by
  induction bits with
  | nil => intro c pre rest h0 h8; simp at h0
  | cons b rest' ih =>
    intro c pre rest h0 h8
    show packBits (packBit ⟨pre ++ c :: rest, pre.length, 8 - (rest'.length + 1)⟩ b) rest'
        = ⟨pre ++ orBits c (b :: rest') :: rest, pre.length + 1, 0⟩
    rw [packBit_mid]
    have hsh : 8 - (8 - (rest'.length + 1)) - 1 = rest'.length := by
      simp only [List.length_cons] at h8; omega
    rw [hsh]
    by_cases hr : rest'.length = 0
    · have hre : rest' = [] := List.length_eq_zero.mp hr
      subst hre
      rw [if_pos (by omega)]
      show packBits _ [] = _
      simp [packBits, orBits]
    · rw [if_neg (by omega)]
      have hk : 8 - (rest'.length + 1) + 1 = 8 - rest'.length := by
        simp only [List.length_cons] at h8; omega
      rw [hk]
      have := ih (if b then c ||| (1 <<< rest'.length) else c) pre rest
        (by omega) (by simp only [List.length_cons] at h8; omega)
      rw [this]
      rfl

theorem orBits_eq_bitsToNat : ∀ b0 b1 b2 b3 b4 b5 b6 b7 : Bool,
    orBits 0 [b0, b1, b2, b3, b4, b5, b6, b7] = bitsToNat [b0, b1, b2, b3, b4, b5, b6, b7] := by
  decide

theorem packBits_byte (pre : List Nat) (rest : List Nat)
    (b0 b1 b2 b3 b4 b5 b6 b7 : Bool) :
    packBits ⟨pre ++ 0 :: rest, pre.length, 0⟩ [b0, b1, b2, b3, b4, b5, b6, b7]
      = ⟨pre ++ bitsToNat [b0, b1, b2, b3, b4, b5, b6, b7] :: rest, pre.length + 1, 0⟩ := by
  have h := packBits_accum [b0, b1, b2, b3, b4, b5, b6, b7] 0 pre rest (by simp) (by simp)
  rw [orBits_eq_bitsToNat] at h
  exact h

theorem packBits_append (s : PackState) (a b : List Bool) :
    packBits s (a ++ b) = packBits (packBits s a) b := by
  simp [packBits, List.foldl_append]

theorem bitsToBytes_cons (b : Bool) (rest : List Bool) :
    bitsToBytes (b :: rest)
      = bitsToNat ((b :: rest).take 8) :: bitsToBytes ((b :: rest).drop 8) := by
  rw [bitsToBytes.eq_def]

theorem packBits_chunks (m : Nat) : ∀ (bits : List Bool) (pre : List Nat),
    bits.length = 8 * m →
    packBits ⟨pre ++ List.replicate m 0, pre.length, 0⟩ bits
      = ⟨pre ++ bitsToBytes bits, pre.length + m, 0⟩ := by
  induction m with
  | zero =>
    intro bits pre h
    rw [List.length_eq_zero.mp (by omega : bits.length = 0)]
    simp [packBits, bitsToBytes]
  | succ m ih =>
    intro bits pre h
    rcases bits with _ | ⟨b0, _ | ⟨b1, _ | ⟨b2, _ | ⟨b3, _ | ⟨b4, _ | ⟨b5, _ | ⟨b6, _ | ⟨b7, rest⟩⟩⟩⟩⟩⟩⟩⟩ <;>
      simp only [List.length_cons, List.length_nil] at h <;> try omega
    have hrest : rest.length = 8 * m := by omega
    have hsplit : (b0 :: b1 :: b2 :: b3 :: b4 :: b5 :: b6 :: b7 :: rest)
        = [b0, b1, b2, b3, b4, b5, b6, b7] ++ rest := rfl
    rw [hsplit, List.replicate_succ, packBits_append, packBits_byte]
    have hpre : pre ++ bitsToNat [b0, b1, b2, b3, b4, b5, b6, b7] :: List.replicate m 0
        = (pre ++ [bitsToNat [b0, b1, b2, b3, b4, b5, b6, b7]]) ++ List.replicate m 0 := by
      simp
    have hlen : pre.length + 1 = (pre ++ [bitsToNat [b0, b1, b2, b3, b4, b5, b6, b7]]).length := by
      simp
    rw [hpre, hlen, ih rest _ hrest]
    have hbb : bitsToBytes ([b0, b1, b2, b3, b4, b5, b6, b7] ++ rest)
        = bitsToNat [b0, b1, b2, b3, b4, b5, b6, b7] :: bitsToBytes rest := by
      rw [show [b0, b1, b2, b3, b4, b5, b6, b7] ++ rest
          = b0 :: b1 :: b2 :: b3 :: b4 :: b5 :: b6 :: b7 :: rest from rfl]
      rw [bitsToBytes_cons]
      rfl
    rw [hbb]
    simp
    omega

theorem packWord_eq_packBits (s : PackState) (w n : Nat) :
    packWord s w n = packBits s (wordToBits w n) := by
  unfold packWord packBits wordToBits
  rw [List.foldl_map]

theorem foldl_packBits_flatten (ls : List (List Bool)) (s : PackState) :
    ls.foldl packBits s = packBits s ls.flatten := by
  induction ls generalizing s with
  | nil => simp [packBits]
  | cons a rest ih => simp [packBits_append, ih]

theorem seedWordsToSeedCore_eq (ws : List Nat) :
    seedWordsToSeedCore ws
      = (packBits ⟨List.replicate SEED_LENGTH 0, 0, 0⟩ (seedWordsBits ws)).bytes := by
  unfold seedWordsToSeedCore seedWordsBits
  simp only [packWord_eq_packBits]
  rw [← List.foldl_map, foldl_packBits_flatten]

theorem seedWordsBits_length (ws : List Nat) : (seedWordsBits ws).length = 128 := by
  rw [seedWordsBits, List.length_flatten]
  rw [show List.range SEED_WORDS_LENGTH
      = [0, 1, 2, 3, 4, 5, 6, 7, 8, 9, 10, 11, 12] from rfl]
  simp [wordToBits]
  decide

theorem bytesToBits_cons (b : Nat) (rest : List Nat) :
    bytesToBits (b :: rest) = byteToBits b ++ bytesToBits rest := by
  simp [bytesToBits]

theorem byteToBits_bitsToNat8 : ∀ b0 b1 b2 b3 b4 b5 b6 b7 : Bool,
    byteToBits (bitsToNat [b0, b1, b2, b3, b4, b5, b6, b7])
      = [b0, b1, b2, b3, b4, b5, b6, b7] := by
  decide

theorem bytesToBits_bitsToBytes (m : Nat) : ∀ bits : List Bool,
    bits.length = 8 * m → bytesToBits (bitsToBytes bits) = bits := by
  induction m with
  | zero =>
    intro bits h
    rw [List.length_eq_zero.mp (by omega : bits.length = 0)]
    simp [bitsToBytes, bytesToBits]
  | succ m ih =>
    intro bits h
    rcases bits with _ | ⟨b0, _ | ⟨b1, _ | ⟨b2, _ | ⟨b3, _ | ⟨b4, _ | ⟨b5, _ | ⟨b6, _ | ⟨b7, rest⟩⟩⟩⟩⟩⟩⟩⟩ <;>
      simp only [List.length_cons, List.length_nil] at h <;> try omega
    have hrest : rest.length = 8 * m := by omega
    have hbb : bitsToBytes (b0 :: b1 :: b2 :: b3 :: b4 :: b5 :: b6 :: b7 :: rest)
        = bitsToNat [b0, b1, b2, b3, b4, b5, b6, b7] :: bitsToBytes rest := by
      rw [bitsToBytes_cons]
      rfl
    rw [hbb, bytesToBits_cons, byteToBits_bitsToNat8, ih rest hrest]
    rfl

theorem bitsToBytes_length (m : Nat) : ∀ bits : List Bool,
    bits.length = 8 * m → (bitsToBytes bits).length = m := by
  induction m with
  | zero =>
    intro bits h
    rw [List.length_eq_zero.mp (by omega : bits.length = 0)]
    simp [bitsToBytes]
  | succ m ih =>
    intro bits h
    rcases bits with _ | ⟨b0, _ | ⟨b1, _ | ⟨b2, _ | ⟨b3, _ | ⟨b4, _ | ⟨b5, _ | ⟨b6, _ | ⟨b7, rest⟩⟩⟩⟩⟩⟩⟩⟩ <;>
      simp only [List.length_cons, List.length_nil] at h <;> try omega
    have hrest : rest.length = 8 * m := by omega
    have hbb : bitsToBytes (b0 :: b1 :: b2 :: b3 :: b4 :: b5 :: b6 :: b7 :: rest)
        = bitsToNat [b0, b1, b2, b3, b4, b5, b6, b7] :: bitsToBytes rest := by
      rw [bitsToBytes_cons]
      rfl
    rw [hbb]
    simp [ih rest hrest]

theorem seedWordsToSeedCore_spec (ws : List Nat) :
    seedWordsToSeedCore ws = bitsToBytes (seedWordsBits ws) ∧
    (seedWordsToSeedCore ws).length = 16 ∧
    bytesToBits (seedWordsToSeedCore ws) = seedWordsBits ws := by
  have h128 : (seedWordsBits ws).length = 8 * 16 := by
    rw [seedWordsBits_length]
  have hcore : seedWordsToSeedCore ws = bitsToBytes (seedWordsBits ws) := by
    rw [seedWordsToSeedCore_eq]
    have hch := packBits_chunks 16 (seedWordsBits ws) [] h128
    simp only [List.nil_append, List.length_nil] at hch
    rw [show SEED_LENGTH = 16 from rfl, hch]
  refine ⟨hcore, ?_, ?_⟩
  · rw [hcore, bitsToBytes_length 16 _ h128]
  · rw [hcore, bytesToBits_bitsToBytes 16 _ h128]

theorem strLt_irrefl (a : List Char) : strLt a a = false := by
  induction a with
  | nil => rfl
  | cons x xs ih => simp [strLt, ih]

theorem strLt_ne {a b : List Char} (h : strLt a b = true) : a ≠ b := by
  intro hab
  subst hab
  rw [strLt_irrefl] at h
  cases h

theorem strLt_asymm (a : List Char) : ∀ b, strLt a b = true → strLt b a = false := by
  induction a with
  | nil =>
    intro b h
    cases b with
    | nil => simp [strLt] at h
    | cons y ys => simp [strLt]
  | cons x xs ih =>
    intro b h
    cases b with
    | nil => simp [strLt] at h
    | cons y ys =>
      simp only [strLt] at h ⊢
      by_cases h1 : x.toNat < y.toNat
      · rw [if_neg (by omega), if_pos h1]
      · rw [if_neg h1] at h
        by_cases h2 : y.toNat < x.toNat
        · rw [if_pos h2] at h; cases h
        · rw [if_neg h2] at h
          rw [if_neg h2, if_neg h1]
          exact ih ys h

theorem strLt_trichotomy (a b : List Char) (hne : a ≠ b)
    (hnlt : strLt b a = false) : strLt a b = true := by
  induction a generalizing b with
  | nil =>
    cases b with
    | nil => exact absurd rfl hne
    | cons y ys => simp [strLt]
  | cons x xs ih =>
    cases b with
    | nil => simp [strLt] at hnlt
    | cons y ys =>
      simp only [strLt] at hnlt ⊢
      by_cases h1 : x.toNat < y.toNat
      · rw [if_pos h1]
      · rw [if_neg h1]
        by_cases h2 : y.toNat < x.toNat
        · rw [if_pos h2] at hnlt; cases hnlt
        · rw [if_neg h2, if_neg h1] at hnlt
          rw [if_neg h2]
          have hxy : x = y := Char.eq_of_val_eq (UInt32.toNat.inj
            (by simp only [Char.toNat] at h1 h2; omega))
          refine ih ys ?_ hnlt
          intro hxys
          exact hne (by rw [hxy, hxys])

theorem findPrefixFrom_none (dict : List Wrd) (p : Wrd) (bound : Nat) :
    ∀ (n j : Nat), bound - j ≤ n →
    (∀ k, j ≤ k → k < bound → prefix3 (dict.getD k []) ≠ p) →
    findPrefixFrom dict p bound j = none := by
  intro n
  induction n with
  | zero =>
    intro j hn hno
    rw [findPrefixFrom]
    rw [if_neg (by omega)]
  | succ n ih =>
    intro j hn hno
    rw [findPrefixFrom]
    by_cases hj : j < bound
    · rw [if_pos hj]
      simp only
      rw [if_neg (hno j Nat.le.refl hj)]
      by_cases hb : strLt p (prefix3 (dict.getD j [])) = true
      · rw [if_pos hb]
      · rw [if_neg hb]
        exact ih (j + 1) (by omega) (fun k hk1 hk2 => hno k (by omega) hk2)
    · rw [if_neg hj]

theorem findPrefixSpecFrom_none (dict : List Wrd) (p : Wrd) (bound : Nat) :
    ∀ (n j : Nat), bound - j ≤ n →
    (∀ k, j ≤ k → k < bound → prefix3 (dict.getD k []) ≠ p) →
    findPrefixSpecFrom dict p bound j = none := by
  intro n
  induction n with
  | zero =>
    intro j hn hno
    rw [findPrefixSpecFrom]
    rw [if_neg (by omega)]
  | succ n ih =>
    intro j hn hno
    rw [findPrefixSpecFrom]
    by_cases hj : j < bound
    · rw [if_pos hj, if_neg (hno j Nat.le.refl hj)]
      exact ih (j + 1) (by omega) (fun k hk1 hk2 => hno k (by omega) hk2)
    · rw [if_neg hj]

theorem findPrefixFrom_eq_spec (dict : List Wrd) (p : Wrd) (bound : Nat)
    (hsorted : List.Pairwise (fun a b => strLt (prefix3 b) (prefix3 a) = false) dict)
    (hbound : bound ≤ dict.length) :
    ∀ (n j : Nat), bound - j ≤ n →
    findPrefixFrom dict p bound j = findPrefixSpecFrom dict p bound j := by
  have hidx := (List.pairwise_iff_getElem).mp hsorted
  intro n
  induction n with
  | zero =>
    intro j hn
    rw [findPrefixFrom, findPrefixSpecFrom]
    rw [if_neg (by omega), if_neg (by omega)]
  | succ n ih =>
    intro j hn
    rw [findPrefixFrom, findPrefixSpecFrom]
    by_cases hj : j < bound
    · rw [if_pos hj, if_pos hj]
      simp only
      by_cases heq : prefix3 (dict.getD j []) = p
      · rw [if_pos heq, if_pos heq]
      · rw [if_neg heq, if_neg heq]
        by_cases hb : strLt p (prefix3 (dict.getD j [])) = true
        · rw [if_pos hb]
          refine (findPrefixSpecFrom_none dict p bound (bound - (j + 1)) (j + 1) Nat.le.refl ?_).symm
          intro k hk1 hk2 hkp
          have hjlen : j < dict.length := by omega
          have hklen : k < dict.length := by omega
          have hsk := hidx j k hjlen hklen (by omega)
          rw [List.getD_eq_getElem dict [] hjlen] at hb
          rw [List.getD_eq_getElem dict [] hklen] at hkp
          rw [hkp] at hsk
          rw [hsk] at hb
          cases hb
        · rw [if_neg hb]
          exact ih (j + 1) (by omega)
    · rw [if_neg hj, if_neg hj]

/-- C6: with the dictionary's 3-letter prefixes sorted ascending, the
early-exit scan of `validatePhrase` computes, for every searched prefix and
every bound not exceeding the dictionary length (in particular 256 and the
full length), exactly what the exhaustive first-match scan computes,
including the not-found outcome. -/
theorem earlyExitScan_eq_exhaustive (dict : List Wrd) (p : Wrd) (bound : Nat)
    (hsorted : List.Pairwise (fun a b => strLt (prefix3 b) (prefix3 a) = false) dict)
    (hbound : bound ≤ dict.length) :
    findPrefixIdx dict p bound = findPrefixSpecIdx dict p bound := by
  exact findPrefixFrom_eq_spec dict p bound hsorted hbound bound 0 (by omega)

theorem findPrefixFrom_self (dict : List Wrd) (w bound : Nat)
    (hstrict : List.Pairwise (fun a b => strLt (prefix3 a) (prefix3 b) = true) dict)
    (hw : w < bound) (hbound : bound ≤ dict.length) :
    ∀ (n j : Nat), w - j ≤ n → j ≤ w →
    findPrefixFrom dict (prefix3 (dict.getD w [])) bound j = some w := by
  have hidx := (List.pairwise_iff_getElem).mp hstrict
  intro n
  induction n with
  | zero =>
    intro j hn hj
    have hjw : j = w := by omega
    subst hjw
    rw [findPrefixFrom, if_pos hw]
    simp
  | succ n ih =>
    intro j hn hj
    by_cases hjw : j = w
    · subst hjw
      rw [findPrefixFrom, if_pos hw]
      simp
    · have hjlt : j < w := by omega
      have hjlen : j < dict.length := by omega
      have hwlen : w < dict.length := by omega
      have hlt := hidx j w hjlen hwlen hjlt
      have hne : prefix3 (dict.getD j []) ≠ prefix3 (dict.getD w []) := by
        rw [List.getD_eq_getElem dict [] hjlen, List.getD_eq_getElem dict [] hwlen]
        exact strLt_ne hlt
      have hnb : strLt (prefix3 (dict.getD w [])) (prefix3 (dict.getD j [])) = false := by
        rw [List.getD_eq_getElem dict [] hjlen, List.getD_eq_getElem dict [] hwlen]
        exact strLt_asymm _ _ hlt
      rw [findPrefixFrom, if_pos (by omega)]
      simp only
      rw [if_neg hne, if_neg (by rw [hnb]; exact Bool.false_ne_true)]
      exact ih (j + 1) (by omega) (by omega)

theorem validateLoop_cons_pass (dict : List Wrd) (word : Wrd) (rest : List Wrd)
    (i : Nat) (acc : List Nat) (h3 : ¬ word.length < 3) (f : Nat)
    (hf : findPrefixIdx dict (prefix3 word) (if i = 12 then 256 else dict.length) = some f) :
    validateLoop dict (word :: rest) i acc
      = validateLoop dict rest (i + 1)
          (if i < SEED_WORDS_LENGTH then acc ++ [f] else acc) := by
  simp only [validateLoop]
  rw [if_neg h3, hf]

theorem validateLoop_dictWords (dict : List Wrd) (hd : DictValid dict) :
    ∀ (idxs : List Nat) (i : Nat) (acc : List Nat),
    (∀ k, (hk : k < idxs.length) → idxs.get ⟨k, hk⟩ < (if i + k = 12 then 256 else 1024)) →
    validateLoop dict (idxs.map (fun w => dict.getD w [])) i acc
      = .ok (acc ++ idxs.take (13 - i)) := by
  obtain ⟨hlen, hwords, hsorted⟩ := hd
  intro idxs
  induction idxs with
  | nil => intro i acc h; simp [validateLoop]
  | cons w rest ih =>
    intro i acc h
    have hw : w < (if i + 0 = 12 then 256 else 1024) := h 0 (by simp)
    have hw1024 : w < 1024 := by split at hw <;> omega
    have hwlen : w < dict.length := by omega
    have hmem : dict.getD w [] ∈ dict := by
      rw [List.getD_eq_getElem dict [] hwlen]
      exact List.getElem_mem hwlen
    have h3 : 3 ≤ (dict.getD w []).length := (hwords _ hmem).1
    have hbound : (if i = 12 then 256 else dict.length) ≤ dict.length := by
      split <;> omega
    have hwb : w < (if i = 12 then 256 else dict.length) := by
      by_cases h12 : i = 12
      · rw [if_pos h12]
        rw [show i + 0 = i from rfl, if_pos h12] at hw
        exact hw
      · rw [if_neg h12]; omega
    have hscan : findPrefixIdx dict (prefix3 (dict.getD w []))
        (if i = 12 then 256 else dict.length) = some w :=
      findPrefixFrom_self dict w _ hsorted hwb hbound w 0 (by omega) (by omega)
    rw [show (w :: rest).map (fun w => dict.getD w [])
        = dict.getD w [] :: rest.map (fun w => dict.getD w []) from rfl]
    rw [validateLoop_cons_pass dict _ _ i acc (by omega) w hscan]
    rw [ih (i + 1) _ (fun k hk => by
      have := h (k + 1) (by simpa using Nat.succ_lt_succ hk)
      simpa [Nat.add_assoc, Nat.add_comm 1 k, Nat.add_left_comm] using this)]
    by_cases hi : i < SEED_WORDS_LENGTH
    · rw [if_pos hi]
      have h13 : 13 - i = (13 - (i + 1)) + 1 := by
        simp only [SEED_WORDS_LENGTH] at hi; omega
      rw [h13, List.take_succ_cons]
      simp
    · rw [if_neg hi]
      have h13 : 13 - i = 0 := by
        simp only [SEED_WORDS_LENGTH] at hi; omega
      have h13b : 13 - (i + 1) = 0 := by
        simp only [SEED_WORDS_LENGTH] at hi; omega
      rw [h13, h13b]
      simp

theorem validateLoop_cons_fail (dict : List Wrd) (word : Wrd) (rest : List Wrd)
    (i : Nat) (acc : List Nat) (h3 : ¬ word.length < 3)
    (hf : findPrefixIdx dict (prefix3 word) (if i = 12 then 256 else dict.length) = none) :
    validateLoop dict (word :: rest) i acc
      = .error (if i = 12 then first256Error i else unknownPrefixError (prefix3 word) i) := by
  simp only [validateLoop]
  rw [if_neg h3, hf]
  exact (apply_ite Except.error _ _ _).symm

theorem validateLoop_congr (dict : List Wrd) :
    ∀ (ws1 ws2 : List Wrd) (i : Nat) (acc : List Nat),
    ws1.length = ws2.length →
    (∀ k, k < ws1.length → 3 ≤ (ws1.getD k []).length ∧ 3 ≤ (ws2.getD k []).length ∧
      prefix3 (ws1.getD k []) = prefix3 (ws2.getD k [])) →
    validateLoop dict ws1 i acc = validateLoop dict ws2 i acc := by
  intro ws1
  induction ws1 with
  | nil =>
    intro ws2 i acc hlen h
    rw [List.length_eq_zero.mp hlen.symm]
  | cons w1 rest1 ih =>
    intro ws2 i acc hlen h
    cases ws2 with
    | nil => simp at hlen
    | cons w2 rest2 =>
      obtain ⟨h31, h32, hp⟩ := h 0 (by simp)
      simp only [List.getD_cons_zero] at h31 h32 hp
      cases hscan : findPrefixIdx dict (prefix3 w2) (if i = 12 then 256 else dict.length) with
      | none =>
        rw [validateLoop_cons_fail dict w1 rest1 i acc (by omega) (by rw [hp]; exact hscan)]
        rw [validateLoop_cons_fail dict w2 rest2 i acc (by omega) hscan]
        rw [hp]
      | some f =>
        rw [validateLoop_cons_pass dict w1 rest1 i acc (by omega) f (by rw [hp]; exact hscan)]
        rw [validateLoop_cons_pass dict w2 rest2 i acc (by omega) f hscan]
        exact ih rest2 (i + 1) _ (by simpa using hlen)
          (fun k hk => by
            have := h (k + 1) (by simpa using Nat.succ_lt_succ hk)
            simpa using this)

theorem validateLoop_peel (dict : List Wrd) :
    ∀ (ws1 rest : List Wrd) (i : Nat) (acc : List Nat),
    i + ws1.length ≤ 12 →
    (∀ k, k < ws1.length → 3 ≤ (ws1.getD k []).length ∧
      (findPrefixIdx dict (prefix3 (ws1.getD k [])) dict.length).isSome) →
    ∃ acc2, validateLoop dict (ws1 ++ rest) i acc
      = validateLoop dict rest (i + ws1.length) acc2 := by
  intro ws1
  induction ws1 with
  | nil =>
    intro rest i acc h12 hp
    exact ⟨acc, by simp⟩
  | cons w tail ih =>
    intro rest i acc h12 hp
    obtain ⟨h3, hsome⟩ := hp 0 (by simp)
    simp only [List.getD_cons_zero] at h3 hsome
    obtain ⟨f, hf⟩ := Option.isSome_iff_exists.mp hsome
    have hi12 : i ≠ 12 := by simp only [List.length_cons] at h12; omega
    have hf2 : findPrefixIdx dict (prefix3 w) (if i = 12 then 256 else dict.length) = some f := by
      rw [if_neg hi12]; exact hf
    rw [show (w :: tail) ++ rest = w :: (tail ++ rest) from rfl]
    rw [validateLoop_cons_pass dict w _ i acc (by omega) f hf2]
    obtain ⟨acc2, hacc⟩ := ih rest (i + 1) _
      (by simp only [List.length_cons] at h12; omega)
      (fun k hk => by
        have := hp (k + 1) (by simpa using Nat.succ_lt_succ hk)
        simpa using this)
    refine ⟨acc2, ?_⟩
    rw [hacc]
    rw [show i + 1 + tail.length = i + (w :: tail).length by simp; omega]

/-- C7: a 15-word phrase whose first 12 words resolve in the dictionary but
whose 13th word's 3-letter prefix matches no entry below index 256 — even
when it does match some entry at index 256 or beyond — fails validation with
the error that the prefix for word 13 must be found in the first 256 words
of the dictionary. -/
theorem validatePhrase_first256 (dict : List Wrd) (hashFn : List Nat → List Nat)
    (phrase : List Char) (front : List Wrd) (w12 w13 w14 : Wrd)
    (hsplit : splitOnChar (sanitizePhrase phrase) ' ' = front ++ [w12, w13, w14])
    (hfront : front.length = 12)
    (hpass : ∀ k, k < front.length → 3 ≤ (front.getD k []).length ∧
      (findPrefixIdx dict (prefix3 (front.getD k [])) dict.length).isSome)
    (h12len : 3 ≤ w12.length)
    (hbelow : ∀ k, k < 256 → prefix3 (dict.getD k []) ≠ prefix3 w12)
    (habove : ∃ k, 256 ≤ k ∧ k < dict.length ∧ prefix3 (dict.getD k []) = prefix3 w12) :
    validatePhrase dict hashFn phrase
      = (false, "Prefix for word 13 must be found in the first 256 words of the dictionary",
         none) := by
  simp only [validatePhrase]
  rw [hsplit]
  rw [if_neg (show ¬ (front ++ [w12, w13, w14]).length ≠ PHRASE_LENGTH by
    simp [hfront, PHRASE_LENGTH])]
  obtain ⟨acc2, hpeel⟩ := validateLoop_peel dict front [w12, w13, w14] 0 []
    (by omega) hpass
  rw [hfront] at hpeel
  norm_num at hpeel
  rw [hpeel]
  have hnone : findPrefixIdx dict (prefix3 w12) (if (12 : Nat) = 12 then 256 else dict.length)
      = none := by
    rw [if_pos rfl]
    exact findPrefixFrom_none dict (prefix3 w12) 256 256 0 (by omega)
      (fun k _ hk2 => hbelow k hk2)
  rw [validateLoop_cons_fail dict w12 [w13, w14] 12 acc2 (by omega) hnone]
  rw [if_pos rfl]
  rfl

/-- C10: for two phrases whose sanitized splits have the same word count,
all words at least 3 characters, and pairwise equal 3-character prefixes,
`validatePhrase` returns the same validity flag and the same reconstructed
entropy: the result never depends on characters beyond each word's first
three. -/
theorem validatePhrase_prefixInvariance (dict : List Wrd) (hashFn : List Nat → List Nat)
    (p1 p2 : List Char)
    (hlen : (splitOnChar (sanitizePhrase p1) ' ').length
      = (splitOnChar (sanitizePhrase p2) ' ').length)
    (hcorr : ∀ k, k < (splitOnChar (sanitizePhrase p1) ' ').length →
      3 ≤ ((splitOnChar (sanitizePhrase p1) ' ').getD k []).length ∧
      3 ≤ ((splitOnChar (sanitizePhrase p2) ' ').getD k []).length ∧
      prefix3 ((splitOnChar (sanitizePhrase p1) ' ').getD k [])
        = prefix3 ((splitOnChar (sanitizePhrase p2) ' ').getD k [])) :
    (validatePhrase dict hashFn p1).1 = (validatePhrase dict hashFn p2).1 ∧
    (validatePhrase dict hashFn p1).2.2 = (validatePhrase dict hashFn p2).2.2 := by
  simp only [validatePhrase]
  by_cases h15 : (splitOnChar (sanitizePhrase p1) ' ').length ≠ PHRASE_LENGTH
  · rw [if_pos h15, if_pos (by rw [← hlen]; exact h15)]
    exact ⟨rfl, rfl⟩
  · rw [if_neg h15, if_neg (by rw [← hlen]; exact h15)]
    push_neg at h15
    rw [validateLoop_congr dict (splitOnChar (sanitizePhrase p1) ' ')
      (splitOnChar (sanitizePhrase p2) ' ') 0 [] hlen hcorr]
    cases hloop : validateLoop dict (splitOnChar (sanitizePhrase p2) ' ') 0 [] with
    | error e => exact ⟨rfl, rfl⟩
    | ok seedWords =>
      show (validateChecksum dict hashFn (splitOnChar (sanitizePhrase p1) ' ') seedWords).1
          = (validateChecksum dict hashFn (splitOnChar (sanitizePhrase p2) ' ') seedWords).1 ∧
        (validateChecksum dict hashFn (splitOnChar (sanitizePhrase p1) ' ') seedWords).2.2
          = (validateChecksum dict hashFn (splitOnChar (sanitizePhrase p2) ' ') seedWords).2.2
      simp only [validateChecksum]
      by_cases hsw : seedWords.length ≠ SEED_WORDS_LENGTH
      · rw [if_pos hsw, if_pos hsw]
        exact ⟨rfl, rfl⟩
      · rw [if_neg hsw, if_neg hsw]
        have hp13 : prefix3 ((splitOnChar (sanitizePhrase p1) ' ').getD (0 + SEED_WORDS_LENGTH) [])
            = prefix3 ((splitOnChar (sanitizePhrase p2) ' ').getD (0 + SEED_WORDS_LENGTH) []) :=
          (hcorr (0 + SEED_WORDS_LENGTH) (by rw [h15]; decide)).2.2
        have hp14 : prefix3 ((splitOnChar (sanitizePhrase p1) ' ').getD (1 + SEED_WORDS_LENGTH) [])
            = prefix3 ((splitOnChar (sanitizePhrase p2) ' ').getD (1 + SEED_WORDS_LENGTH) []) :=
          (hcorr (1 + SEED_WORDS_LENGTH) (by rw [h15]; decide)).2.2
        rw [hp13, hp14]
        set cw := hashToChecksumWords (hashFn (seedWordsToSeedCore seedWords)) with hcw
        by_cases hc1 : prefix3 ((splitOnChar (sanitizePhrase p2) ' ').getD (0 + SEED_WORDS_LENGTH) [])
            ≠ prefix3 (dict.getD (cw.getD 0 0) [])
        · rw [if_pos hc1, if_pos hc1]
          exact ⟨rfl, rfl⟩
        · rw [if_neg hc1, if_neg hc1]
          by_cases hc2 : prefix3 ((splitOnChar (sanitizePhrase p2) ' ').getD (1 + SEED_WORDS_LENGTH) [])
              ≠ prefix3 (dict.getD (cw.getD 1 0) [])
          · rw [if_pos hc2, if_pos hc2]
            exact ⟨rfl, rfl⟩
          · rw [if_neg hc2, if_neg hc2]
            exact ⟨rfl, rfl⟩

theorem listGetD_midP {α : Type} (pre : List α) (c : α) (rest : List α) (d : α) :
    (pre ++ c :: rest).getD pre.length d = c := by
  induction pre with
  | nil => rfl
  | cons x xs ih => simpa using ih

theorem getD_range_map {α : Type} (g : Nat → α) (d : α) (n i : Nat) (h : i < n) :
    ((List.range n).map g).getD i d = g i := by
  rw [List.getD_eq_getElem _ d (by simpa using h)]
  simp

theorem rangeMap_getD {α : Type} (l : List Nat) (f : Nat → α) :
    (List.range l.length).map (fun i => f (l.getD i 0)) = l.map f := by
  induction l with
  | nil => rfl
  | cons x xs ih =>
    simp only [List.length_cons, List.range_succ_eq_map, List.map_cons, List.map_map,
      List.getD_cons_zero]
    have htail : List.map ((fun i => f ((x :: xs).getD i 0)) ∘ Nat.succ) (List.range xs.length)
        = List.map f xs := by
      conv_rhs => rw [← ih]
      exact List.map_congr_left (fun a _ => by simp [Function.comp])
    rw [htail]

theorem shiftTest (w k : Nat) : decide (0 < w &&& (1 <<< k)) = w.testBit k := by
  rw [Nat.one_shiftLeft, Nat.and_two_pow]
  cases h : w.testBit k <;> simp [h, Nat.pos_pow_of_pos]

theorem wordToBits_testBit (w n : Nat) :
    wordToBits w n = (List.range n).map (fun j => w.testBit (n - j - 1)) := by
  unfold wordToBits
  exact List.map_congr_left (fun j _ => shiftTest w (n - j - 1))

theorem bitsToNat_cons_eq (b : Bool) (rest : List Bool) :
    bitsToNat (b :: rest) = 2 ^ rest.length * (if b then 1 else 0) + bitsToNat rest := by
  show (if b then 1 else 0) * 2 ^ rest.length + bitsToNat rest = _
  ring

theorem wordToBits_bitsToNat : ∀ bits : List Bool,
    wordToBits (bitsToNat bits) bits.length = bits := by
  intro bits
  induction bits with
  | nil => rfl
  | cons b rest ih =>
    have hv := bitsToNat_lt rest
    rw [wordToBits_testBit, List.length_cons, List.range_succ_eq_map,
      List.map_cons, List.map_map]
    congr 1
    · show (bitsToNat (b :: rest)).testBit (rest.length + 1 - 0 - 1) = b
      rw [show rest.length + 1 - 0 - 1 = rest.length by omega, bitsToNat_cons_eq,
        Nat.testBit_mul_pow_two_add _ hv]
      rw [if_neg (by omega)]
      rw [show rest.length - rest.length = 0 by omega]
      cases b <;> simp
    · conv_rhs => rw [← ih, wordToBits_testBit]
      apply List.map_congr_left
      intro j hj
      have hj2 : j < rest.length := List.mem_range.mp hj
      show (bitsToNat (b :: rest)).testBit (rest.length + 1 - (j + 1) - 1) = _
      rw [show rest.length + 1 - (j + 1) - 1 = rest.length - j - 1 by omega,
        bitsToNat_cons_eq, Nat.testBit_mul_pow_two_add _ hv]
      rw [if_pos (by omega)]

theorem bytesToBits_length (s : List Nat) : (bytesToBits s).length = 8 * s.length := by
  induction s with
  | nil => rfl
  | cons b rest ih =>
    rw [bytesToBits_cons, List.length_append, byteToBits_length, ih, List.length_cons]
    ring

theorem bitsToBytes_append8 (bits X : List Bool) (h : bits.length = 8) :
    bitsToBytes (bits ++ X) = bitsToNat bits :: bitsToBytes X := by
  rcases bits with _ | ⟨b0, _ | ⟨b1, _ | ⟨b2, _ | ⟨b3, _ | ⟨b4, _ | ⟨b5, _ | ⟨b6, _ | ⟨b7, rest⟩⟩⟩⟩⟩⟩⟩⟩ <;>
    simp only [List.length_cons, List.length_nil] at h <;> try omega
  have hrest : rest = [] := by
    have : rest.length = 0 := by omega
    exact List.length_eq_zero.mp this
  subst hrest
  rw [show ([b0, b1, b2, b3, b4, b5, b6, b7] ++ X)
      = b0 :: b1 :: b2 :: b3 :: b4 :: b5 :: b6 :: b7 :: X from rfl, bitsToBytes_cons]
  rfl

theorem bitsToBytes_bytesToBits (s : List Nat) (hb : ∀ b ∈ s, b < 256) :
    bitsToBytes (bytesToBits s) = s := by
  induction s with
  | nil => simp [bytesToBits, bitsToBytes]
  | cons b rest ih =>
    rw [bytesToBits_cons, bitsToBytes_append8 _ _ (byteToBits_length b)]
    rw [bitsToNat_byteToBits b (hb b (by simp))]
    rw [ih (fun x hx => hb x (by simp [hx]))]

theorem hashToChecksumWords_lt (h : List Nat) (h0 : h.getD 0 0 < 256)
    (h1 : h.getD 1 0 < 256) (h2 : h.getD 2 0 < 256) :
    ∀ w ∈ hashToChecksumWords h, w < 1024 := by
  intro w hw
  simp only [hashToChecksumWords, List.mem_cons, List.mem_singleton,
    List.not_mem_nil, or_false] at hw
  revert hw
  generalize h.getD 0 0 = a at h0
  generalize h.getD 1 0 = b at h1
  generalize h.getD 2 0 = c at h2
  intro hw
  rcases hw with rfl | rfl
  · rw [Nat.shiftLeft_eq, Nat.shiftRight_eq_div_pow]
    norm_num
    omega
  · rw [shiftMask_eq b h1, Nat.shiftLeft_eq, Nat.shiftLeft_eq, Nat.shiftRight_eq_div_pow]
    norm_num
    omega

theorem splitOnChar_ne_nil (s : List Char) (c : Char) : splitOnChar s c ≠ [] := by
  induction s with
  | nil => simp [splitOnChar]
  | cons a rest ih =>
    simp only [splitOnChar]
    cases h : splitOnChar rest c with
    | nil => simp
    | cons w ws => by_cases hac : a = c <;> simp [hac]

theorem splitOnChar_no_sep (w : List Char) (c : Char) (h : c ∉ w) :
    splitOnChar w c = [w] := by
  induction w with
  | nil => rfl
  | cons a rest ih =>
    have hac : ¬ a = c := fun he => h (by rw [he]; exact List.mem_cons_self c rest)
    simp only [splitOnChar]
    rw [ih (fun hm => h (List.mem_cons_of_mem a hm))]
    simp [hac]

theorem splitOnChar_append (w s : List Char) (c : Char) (hw : c ∉ w)
    (r : List Char) (rs : List (List Char)) (hs : splitOnChar s c = r :: rs) :
    splitOnChar (w ++ s) c = (w ++ r) :: rs := by
  induction w with
  | nil => simpa using hs
  | cons a t ih =>
    have hac : ¬ a = c := fun he => hw (by rw [he]; exact List.mem_cons_self c t)
    have ht : c ∉ t := fun hm => hw (List.mem_cons_of_mem a hm)
    show splitOnChar (a :: (t ++ s)) c = ((a :: t) ++ r) :: rs
    simp only [splitOnChar]
    rw [ih ht]
    simp [hac]

theorem splitOnChar_joinSep (ws : List Wrd) (hws : ws ≠ [])
    (hfree : ∀ w ∈ ws, ' ' ∉ w) :
    splitOnChar (joinSep ' ' ws) ' ' = ws := by
  induction ws with
  | nil => exact absurd rfl hws
  | cons w rest ih =>
    cases rest with
    | nil => exact splitOnChar_no_sep w ' ' (hfree w (by simp))
    | cons w2 rest2 =>
      have hjoin : joinSep ' ' (w :: w2 :: rest2) = w ++ (' ' :: joinSep ' ' (w2 :: rest2)) := rfl
      rw [hjoin]
      have hrest := ih (by simp) (fun x hx => hfree x (List.mem_cons_of_mem w hx))
      have hsplit2 : splitOnChar (' ' :: joinSep ' ' (w2 :: rest2)) ' ' = [] :: (w2 :: rest2) := by
        simp only [splitOnChar]
        rw [hrest]
        simp
      rw [splitOnChar_append w _ ' ' (hfree w (by simp)) [] (w2 :: rest2) hsplit2]
      simp

theorem mem_joinSep {c sep : Char} {ws : List Wrd} (h : c ∈ joinSep sep ws) :
    c = sep ∨ ∃ w ∈ ws, c ∈ w := by
  induction ws with
  | nil => simp [joinSep] at h
  | cons w rest ih =>
    cases rest with
    | nil => exact Or.inr ⟨w, by simp, by simpa [joinSep] using h⟩
    | cons w2 r2 =>
      rw [show joinSep sep (w :: w2 :: r2) = w ++ sep :: joinSep sep (w2 :: r2) from rfl] at h
      rcases List.mem_append.mp h with hw | hrest
      · exact Or.inr ⟨w, by simp, hw⟩
      · rcases List.mem_cons.mp hrest with rfl | htail
        · exact Or.inl rfl
        · rcases ih htail with hc | ⟨w2', hw2', hc⟩
          · exact Or.inl hc
          · exact Or.inr ⟨w2', List.mem_cons_of_mem _ hw2', hc⟩

theorem map_id_of_fixed (f : Char → Char) (s : List Char) (h : ∀ c ∈ s, f c = c) :
    s.map f = s := by
  induction s with
  | nil => rfl
  | cons a t ih =>
    rw [List.map_cons, h a (by simp), ih (fun c hc => h c (List.mem_cons_of_mem a hc))]

theorem dropWhile_eq_self_of_head (p : Char → Bool) (s : List Char)
    (h : ∀ c, s.head? = some c → p c = false) : s.dropWhile p = s := by
  cases s with
  | nil => rfl
  | cons a t =>
    rw [List.dropWhile_cons, h a rfl]
    simp

theorem trimChars_eq_self (s : List Char)
    (h1 : ∀ c, s.head? = some c → isWhitespaceChar c = false)
    (h2 : ∀ c, s.getLast? = some c → isWhitespaceChar c = false) :
    trimChars s = s := by
  unfold trimChars
  rw [dropWhile_eq_self_of_head _ s h1]
  rw [dropWhile_eq_self_of_head _ s.reverse
    (fun c hc => h2 c (by rwa [List.head?_reverse] at hc))]
  exact List.reverse_reverse s

theorem removeAdjacentChars_id (c : Char) : ∀ (s : List Char),
    List.Chain' (fun a b => ¬(a = c ∧ b = c)) s → removeAdjacentChars s c = s := by
  intro s
  induction s with
  | nil => intro _; rfl
  | cons a t ih =>
    intro h
    cases t with
    | nil => rfl
    | cons b r =>
      rw [show removeAdjacentChars (a :: b :: r) c
          = if a = c ∧ b = c then removeAdjacentChars (b :: r) c
            else a :: removeAdjacentChars (b :: r) c from rfl]
      have hab : ¬(a = c ∧ b = c) := (List.chain'_cons.mp h).1
      rw [if_neg hab, ih ((List.chain'_cons.mp h).2)]

theorem chain'_of_no_sep (c : Char) : ∀ (w : List Char), (∀ ch ∈ w, ch ≠ c) →
    List.Chain' (fun a b => ¬(a = c ∧ b = c)) w := by
  intro w
  induction w with
  | nil => intro _; simp
  | cons a t ih =>
    intro h
    cases t with
    | nil => simp
    | cons b r =>
      rw [List.chain'_cons]
      exact ⟨fun hc => h a (by simp) hc.1, ih (fun ch hc => h ch (List.mem_cons_of_mem a hc))⟩

theorem joinSep_head (c : Char) (w : Wrd) (ws : List Wrd) (hw : w ≠ []) :
    (joinSep c (w :: ws)).head? = w.head? := by
  cases ws with
  | nil => rfl
  | cons w2 r2 =>
    rw [show joinSep c (w :: w2 :: r2) = w ++ c :: joinSep c (w2 :: r2) from rfl]
    cases w with
    | nil => exact absurd rfl hw
    | cons a t => rfl

theorem joinSep_ne_nil (c : Char) (w : Wrd) (ws : List Wrd) (hw : w ≠ []) :
    joinSep c (w :: ws) ≠ [] := by
  intro he
  have := joinSep_head c w ws hw
  rw [he] at this
  cases w with
  | nil => exact hw rfl
  | cons a t => simp at this

theorem joinSep_getLast_mem (c : Char) : ∀ (ws : List Wrd), ws ≠ [] →
    (∀ w ∈ ws, w ≠ []) →
    ∃ w ∈ ws, (joinSep c ws).getLast? = w.getLast? := by
  intro ws
  induction ws with
  | nil => intro h _; exact absurd rfl h
  | cons w rest ih =>
    intro _ hne
    cases rest with
    | nil => exact ⟨w, by simp, rfl⟩
    | cons w2 r2 =>
      obtain ⟨w', hw', he⟩ := ih (by simp) (fun x hx => hne x (List.mem_cons_of_mem w hx))
      refine ⟨w', List.mem_cons_of_mem w hw', ?_⟩
      rw [show joinSep c (w :: w2 :: r2) = w ++ c :: joinSep c (w2 :: r2) from rfl]
      rw [List.getLast?_append_of_ne_nil w (by simp)]
      have hj2 : joinSep c (w2 :: r2) ≠ [] :=
        joinSep_ne_nil c w2 r2 (hne w2 (by simp))
      cases hj : joinSep c (w2 :: r2) with
      | nil => exact absurd hj hj2
      | cons x xs =>
        rw [List.getLast?_cons_cons]
        rw [← hj, he]

theorem joinSep_chain' (ws : List Wrd)
    (hws : ∀ w ∈ ws, w ≠ [] ∧ ∀ ch ∈ w, ch ≠ ' ') :
    List.Chain' (fun a b => ¬(a = ' ' ∧ b = ' ')) (joinSep ' ' ws) := by
  induction ws with
  | nil => simp [joinSep]
  | cons w rest ih =>
    cases rest with
    | nil => exact chain'_of_no_sep ' ' w (hws w (by simp)).2
    | cons w2 r2 =>
      rw [show joinSep ' ' (w :: w2 :: r2) = w ++ ' ' :: joinSep ' ' (w2 :: r2) from rfl]
      have hrest := ih (fun x hx => hws x (List.mem_cons_of_mem w hx))
      have hw2 : w2 ≠ [] := (hws w2 (by simp)).1
      rw [List.chain'_append]
      refine ⟨chain'_of_no_sep ' ' w (hws w (by simp)).2, ?_, ?_⟩
      · rw [List.chain'_cons']
        refine ⟨?_, hrest⟩
        intro b hb
        rw [joinSep_head ' ' w2 r2 hw2] at hb
        have hbmem : b ∈ w2 := List.mem_of_mem_head? hb
        exact fun hc => (hws w2 (by simp)).2 b hbmem hc.2
      · intro x hx y hy
        have hxm : x ∈ w := List.mem_of_mem_getLast? hx
        exact fun hc => (hws w (by simp)).2 x hxm hc.1

theorem sliceStreams_join : ∀ (sizes : List Nat) (s : List Bool),
    sizes.sum = s.length → (sliceStreams sizes s).flatten = s := by
  intro sizes
  induction sizes with
  | nil =>
    intro s h
    simp only [List.sum_nil] at h
    rw [(List.length_eq_zero.mp h.symm)]
    rfl
  | cons n rest ih =>
    intro s h
    simp only [List.sum_cons] at h
    rw [show sliceStreams (n :: rest) s = s.take n :: sliceStreams rest (s.drop n) from rfl]
    rw [List.flatten_cons]
    rw [ih (s.drop n) (by rw [List.length_drop]; omega)]
    exact List.take_append_drop n s

theorem wordToBits_bitsToNat_len (L : List Bool) (n : Nat) (h : L.length = n) :
    wordToBits (bitsToNat L) n = L := by
  subst h
  exact wordToBits_bitsToNat L

theorem seedToSeedWords_getD (s : List Nat) (i : Nat) (hi : i < 13) :
    (seedToSeedWords s).getD i 0
      = bitsToNat (((bytesToBits s).drop (10 * i)).take
          (if i = SEED_WORDS_LENGTH - 1 then 8 else 10)) := by
  unfold seedToSeedWords
  exact getD_range_map _ 0 _ i hi

theorem seedToSeedWords_length (s : List Nat) : (seedToSeedWords s).length = 13 := by
  simp [seedToSeedWords, SEED_WORDS_LENGTH]

theorem seedToSeedWords_slice (s : List Nat) (hlen : s.length = 16) (i : Nat) (hi : i < 13) :
    wordToBits ((seedToSeedWords s).getD i 0) (if i = SEED_WORDS_LENGTH - 1 then 8 else 10)
      = ((bytesToBits s).drop (10 * i)).take (if i = SEED_WORDS_LENGTH - 1 then 8 else 10) := by
  have h128 : (bytesToBits s).length = 128 := by rw [bytesToBits_length, hlen]
  rw [seedToSeedWords_getD s i hi]
  apply wordToBits_bitsToNat_len
  rw [List.length_take, List.length_drop, h128]
  by_cases h12 : i = SEED_WORDS_LENGTH - 1
  · rw [if_pos h12]
    simp only [show SEED_WORDS_LENGTH - 1 = 12 from rfl] at h12
    subst h12
    norm_num
  · rw [if_neg h12]
    simp only [show SEED_WORDS_LENGTH - 1 = 12 from rfl] at h12
    omega

theorem seedWordsBits_seedToSeedWords (s : List Nat) (hlen : s.length = 16) :
    seedWordsBits (seedToSeedWords s) = bytesToBits s := by
  have h128 : (bytesToBits s).length = 128 := by rw [bytesToBits_length, hlen]
  unfold seedWordsBits
  rw [show List.range SEED_WORDS_LENGTH = [0, 1, 2, 3, 4, 5, 6, 7, 8, 9, 10, 11, 12] from rfl]
  simp only [List.map_cons, List.map_nil]
  rw [seedToSeedWords_slice s hlen 0 (by norm_num), seedToSeedWords_slice s hlen 1 (by norm_num),
    seedToSeedWords_slice s hlen 2 (by norm_num), seedToSeedWords_slice s hlen 3 (by norm_num),
    seedToSeedWords_slice s hlen 4 (by norm_num), seedToSeedWords_slice s hlen 5 (by norm_num),
    seedToSeedWords_slice s hlen 6 (by norm_num), seedToSeedWords_slice s hlen 7 (by norm_num),
    seedToSeedWords_slice s hlen 8 (by norm_num), seedToSeedWords_slice s hlen 9 (by norm_num),
    seedToSeedWords_slice s hlen 10 (by norm_num), seedToSeedWords_slice s hlen 11 (by norm_num),
    seedToSeedWords_slice s hlen 12 (by norm_num)]
  have hjoin := sliceStreams_join [10, 10, 10, 10, 10, 10, 10, 10, 10, 10, 10, 10, 8]
    (bytesToBits s) (by rw [h128]; norm_num)
  simp only [show SEED_WORDS_LENGTH - 1 = 12 from rfl]
  norm_num
  conv_rhs => rw [← hjoin]
  simp only [sliceStreams, List.flatten_cons, List.flatten_nil, List.drop_drop]
  norm_num

theorem sanitizePhrase_joinSep (ws : List Wrd) (hne : ws ≠ [])
    (hcond : ∀ w ∈ ws, w ≠ [] ∧ ∀ ch ∈ w, ch.toLower = ch ∧ isWhitespaceChar ch = false) :
    sanitizePhrase (joinSep ' ' ws) = joinSep ' ' ws := by
  unfold sanitizePhrase
  have hhead : ∀ c, (joinSep ' ' ws).head? = some c → isWhitespaceChar c = false := by
    intro c hc
    cases ws with
    | nil => exact absurd rfl hne
    | cons w rest =>
      rw [joinSep_head ' ' w rest (hcond w (by simp)).1] at hc
      have hcm : c ∈ w := List.mem_of_mem_head? (by rw [hc]; rfl)
      exact ((hcond w (by simp)).2 c hcm).2
  have hlast : ∀ c, (joinSep ' ' ws).getLast? = some c → isWhitespaceChar c = false := by
    intro c hc
    obtain ⟨w, hwmem, hwe⟩ := joinSep_getLast_mem ' ' ws hne (fun x hx => (hcond x hx).1)
    rw [hwe] at hc
    have hcm : c ∈ w := List.mem_of_mem_getLast? (by rw [hc]; rfl)
    exact ((hcond w hwmem).2 c hcm).2
  rw [trimChars_eq_self _ hhead hlast]
  have hlower : toLowerStr (joinSep ' ' ws) = joinSep ' ' ws := by
    apply map_id_of_fixed
    intro c hc
    rcases mem_joinSep hc with rfl | ⟨w, hw, hcw⟩
    · decide
    · exact ((hcond w hw).2 c hcw).1
  rw [show toLowerStr (joinSep ' ' ws) = (joinSep ' ' ws).map Char.toLower from rfl] at hlower
  rw [show toLowerStr (joinSep ' ' ws) = (joinSep ' ' ws).map Char.toLower from rfl, hlower]
  apply removeAdjacentChars_id
  apply joinSep_chain'
  intro w hw
  refine ⟨(hcond w hw).1, fun ch hch he => ?_⟩
  have hws2 := ((hcond w hw).2 ch hch).2
  rw [he] at hws2
  simp [isWhitespaceChar] at hws2

theorem getD_append_left (l1 l2 : List Nat) (n : Nat) (h : n < l1.length) :
    (l1 ++ l2).getD n 0 = l1.getD n 0 := by
  rw [List.getD_eq_getElem _ _ (by rw [List.length_append]; omega), List.getD_eq_getElem _ _ h]
  exact List.getElem_append_left h

theorem hashFn_getD_lt (hashFn : List Nat → List Nat) (hh : HashValid hashFn)
    (s : List Nat) (i : Nat) (hi : i < 64) : (hashFn s).getD i 0 < 256 := by
  obtain ⟨hl64, hball⟩ := hh s
  have hmem : (hashFn s).getD i 0 ∈ hashFn s := by
    rw [List.getD_eq_getElem _ _ (by omega)]
    exact List.getElem_mem _
  exact hball _ hmem

/-- C1: encoding any 16-byte entropy as a 15-word phrase — the 13 seed words
through the dictionary plus the 2 checksum words from the 512-bit digest of
the packed entropy, joined by single spaces, exactly as `generatePhrase`
builds its random draw — and running `validatePhrase` on that phrase
succeeds and returns exactly the original entropy. -/
theorem generatePhrase_roundTrip (dict : List Wrd) (hashFn : List Nat → List Nat)
    (entropy : List Nat) (hd : DictValid dict) (hh : HashValid hashFn)
    (hlen : entropy.length = 16) (hbytes : ∀ b ∈ entropy, b < 256) :
    ∃ phrase, generatePhrase dict hashFn (seedToSeedWords entropy) = some phrase ∧
      validatePhrase dict hashFn phrase = (true, "", some entropy) := by
  obtain ⟨hdlen, hdwords, hdsorted⟩ := hd
  have hwslen : (seedToSeedWords entropy).length = 13 := seedToSeedWords_length entropy
  have h128 : (bytesToBits entropy).length = 128 := by rw [bytesToBits_length, hlen]
  -- bounds on the encoded words
  have hboundgen : ∀ i, i < 13 →
      (seedToSeedWords entropy).getD i 0 < 2 ^ (if i = 12 then 8 else 10) := by
    intro i hi
    rw [seedToSeedWords_getD entropy i hi]
    have hlt := bitsToNat_lt (((bytesToBits entropy).drop (10 * i)).take
      (if i = SEED_WORDS_LENGTH - 1 then 8 else 10))
    have hlen2 : (((bytesToBits entropy).drop (10 * i)).take
        (if i = SEED_WORDS_LENGTH - 1 then 8 else 10)).length
        = (if i = SEED_WORDS_LENGTH - 1 then 8 else 10) := by
      rw [List.length_take, List.length_drop, h128]
      by_cases h12 : i = SEED_WORDS_LENGTH - 1
      · rw [if_pos h12]
        simp only [show SEED_WORDS_LENGTH - 1 = 12 from rfl] at h12
        subst h12
        norm_num
      · rw [if_neg h12]
        simp only [show SEED_WORDS_LENGTH - 1 = 12 from rfl] at h12
        omega
    rw [hlen2] at hlt
    simpa only [show SEED_WORDS_LENGTH - 1 = 12 from rfl] using hlt
  have hb1024 : ∀ i, i < 13 → (seedToSeedWords entropy).getD i 0 < 1024 := by
    intro i hi
    have hbi := hboundgen i hi
    by_cases h12 : i = 12
    · rw [if_pos h12] at hbi; omega
    · rw [if_neg h12] at hbi; omega
  have hb256 : (seedToSeedWords entropy).getD 12 0 < 256 := by
    have hbi := hboundgen 12 (by norm_num)
    rwa [if_pos rfl] at hbi
  -- the mod reduction in generatePhrase is the identity here
  have hmod : (List.range SEED_WORDS_LENGTH).map
      (fun i => ((seedToSeedWords entropy).getD i 0) % (1 <<< (if i = 12 then 8 else 10)))
      = seedToSeedWords entropy := by
    have hcongr : ∀ i ∈ List.range SEED_WORDS_LENGTH,
        ((seedToSeedWords entropy).getD i 0) % (1 <<< (if i = 12 then 8 else 10))
        = (fun i => id ((seedToSeedWords entropy).getD i 0)) i := by
      intro i hi
      have hi13 : i < 13 := by simpa [SEED_WORDS_LENGTH] using List.mem_range.mp hi
      show _ % _ = _
      apply Nat.mod_eq_of_lt
      rw [Nat.one_shiftLeft]
      exact hboundgen i hi13
    rw [List.map_congr_left hcongr]
    rw [show SEED_WORDS_LENGTH = (seedToSeedWords entropy).length from hwslen.symm]
    rw [rangeMap_getD (seedToSeedWords entropy) id, List.map_id]
  -- the two checksum indices are below 1024
  have hcwlt : ∀ w ∈ hashToChecksumWords (hashFn (seedWordsToSeedCore (seedToSeedWords entropy))),
      w < 1024 :=
    hashToChecksumWords_lt _ (hashFn_getD_lt hashFn hh _ 0 (by omega))
      (hashFn_getD_lt hashFn hh _ 1 (by omega)) (hashFn_getD_lt hashFn hh _ 2 (by omega))
  have hcwget : ∀ i, i < 2 →
      (hashToChecksumWords (hashFn (seedWordsToSeedCore (seedToSeedWords entropy)))).getD i 0
        ∈ hashToChecksumWords (hashFn (seedWordsToSeedCore (seedToSeedWords entropy))) := by
    intro i hi
    rw [List.getD_eq_getElem _ _ (show i < (hashToChecksumWords _).length by
      simp only [hashToChecksumWords, List.length_cons, List.length_nil]
      omega)]
    exact List.getElem_mem _
  have hcw0 : (hashToChecksumWords (hashFn (seedWordsToSeedCore (seedToSeedWords entropy)))).getD 0 0
      < 1024 := hcwlt _ (hcwget 0 (by omega))
  have hcw1 : (hashToChecksumWords (hashFn (seedWordsToSeedCore (seedToSeedWords entropy)))).getD 1 0
      < 1024 := hcwlt _ (hcwget 1 (by omega))
  -- the generated phrase
  have hpw1 : (List.range SEED_WORDS_LENGTH).map
      (fun i => dict.getD ((seedToSeedWords entropy).getD i 0) [])
      = (seedToSeedWords entropy).map (fun w => dict.getD w []) := by
    rw [show SEED_WORDS_LENGTH = (seedToSeedWords entropy).length from hwslen.symm]
    exact rangeMap_getD (seedToSeedWords entropy) (fun w => dict.getD w [])
  have hgen : generatePhrase dict hashFn (seedToSeedWords entropy)
      = some (joinSep ' ' (((seedToSeedWords entropy)
          ++ [(hashToChecksumWords (hashFn (seedWordsToSeedCore (seedToSeedWords entropy)))).getD 0 0,
              (hashToChecksumWords (hashFn (seedWordsToSeedCore (seedToSeedWords entropy)))).getD 1 0]).map
          (fun w => dict.getD w []))) := by
    unfold generatePhrase
    simp only []
    rw [hmod]
    rw [if_neg (by rw [hwslen]; simp [SEED_WORDS_LENGTH])]
    rw [hpw1, List.map_append]
    rfl
  -- every phrase word is a dictionary word with the documented properties
  have hdictmem : ∀ w : Nat, w < 1024 → dict.getD w [] ∈ dict := by
    intro w hw
    rw [List.getD_eq_getElem _ _ (by omega)]
    exact List.getElem_mem _
  have hidxmem : ∀ x ∈ (seedToSeedWords entropy)
      ++ [(hashToChecksumWords (hashFn (seedWordsToSeedCore (seedToSeedWords entropy)))).getD 0 0,
          (hashToChecksumWords (hashFn (seedWordsToSeedCore (seedToSeedWords entropy)))).getD 1 0],
      x < 1024 := by
    intro x hx
    rcases List.mem_append.mp hx with hxs | hxc
    · obtain ⟨i, hi, hxi⟩ := List.getElem_of_mem hxs
      have hgi : (seedToSeedWords entropy).getD i 0 = x := by
        rw [List.getD_eq_getElem _ _ hi]; exact hxi
      rw [← hgi]
      exact hb1024 i (by omega)
    · simp only [List.mem_cons, List.mem_singleton, List.not_mem_nil, or_false] at hxc
      rcases hxc with rfl | rfl
      · exact hcw0
      · exact hcw1
  have hwordcond : ∀ w ∈ ((seedToSeedWords entropy)
      ++ [(hashToChecksumWords (hashFn (seedWordsToSeedCore (seedToSeedWords entropy)))).getD 0 0,
          (hashToChecksumWords (hashFn (seedWordsToSeedCore (seedToSeedWords entropy)))).getD 1 0]).map
      (fun w => dict.getD w []),
      w ≠ [] ∧ ∀ ch ∈ w, ch.toLower = ch ∧ isWhitespaceChar ch = false := by
    intro w hw
    obtain ⟨x, hx, rfl⟩ := List.mem_map.mp hw
    have hmem : dict.getD x [] ∈ dict := hdictmem x (hidxmem x hx)
    obtain ⟨h3, hchars⟩ := hdwords _ hmem
    exact ⟨by intro he; rw [he] at h3; simp at h3, hchars⟩
  -- sanitization is the identity and splitting recovers the words
  have hpne : ((seedToSeedWords entropy)
      ++ [(hashToChecksumWords (hashFn (seedWordsToSeedCore (seedToSeedWords entropy)))).getD 0 0,
          (hashToChecksumWords (hashFn (seedWordsToSeedCore (seedToSeedWords entropy)))).getD 1 0]).map
      (fun w => dict.getD w []) ≠ [] := by
    simp
  have hsan := sanitizePhrase_joinSep _ hpne hwordcond
  have hsplit : splitOnChar (sanitizePhrase (joinSep ' ' (((seedToSeedWords entropy)
      ++ [(hashToChecksumWords (hashFn (seedWordsToSeedCore (seedToSeedWords entropy)))).getD 0 0,
          (hashToChecksumWords (hashFn (seedWordsToSeedCore (seedToSeedWords entropy)))).getD 1 0]).map
      (fun w => dict.getD w [])))) ' '
      = ((seedToSeedWords entropy)
      ++ [(hashToChecksumWords (hashFn (seedWordsToSeedCore (seedToSeedWords entropy)))).getD 0 0,
          (hashToChecksumWords (hashFn (seedWordsToSeedCore (seedToSeedWords entropy)))).getD 1 0]).map
      (fun w => dict.getD w []) := by
    rw [hsan]
    apply splitOnChar_joinSep _ hpne
    intro w hw hsp
    have hwsw := (hwordcond w hw).2 ' ' hsp
    simp [isWhitespaceChar] at hwsw
  -- the scan bounds for the validation loop
  have hidxlt : ∀ k, (hk : k < ((seedToSeedWords entropy)
      ++ [(hashToChecksumWords (hashFn (seedWordsToSeedCore (seedToSeedWords entropy)))).getD 0 0,
          (hashToChecksumWords (hashFn (seedWordsToSeedCore (seedToSeedWords entropy)))).getD 1 0]).length) →
      ((seedToSeedWords entropy)
      ++ [(hashToChecksumWords (hashFn (seedWordsToSeedCore (seedToSeedWords entropy)))).getD 0 0,
          (hashToChecksumWords (hashFn (seedWordsToSeedCore (seedToSeedWords entropy)))).getD 1 0]).get ⟨k, hk⟩
        < (if 0 + k = 12 then 256 else 1024) := by
    intro k hk
    simp only [List.get_eq_getElem, Fin.val_mk]
    have hk15 : k < 15 := by
      rw [List.length_append, hwslen] at hk
      simpa using hk
    by_cases hk13 : k < 13
    · rw [List.getElem_append_left (by omega)]
      by_cases h12 : k = 12
      · subst h12
        rw [if_pos rfl]
        have hb := hb256
        rw [List.getD_eq_getElem _ _ (by omega)] at hb
        exact hb
      · rw [if_neg (by omega)]
        have hb := hb1024 k hk13
        rw [List.getD_eq_getElem _ _ (by omega)] at hb
        exact hb
    · rw [List.getElem_append_right (by omega)]
      rw [if_neg (by omega)]
      have h1314 : k = 13 ∨ k = 14 := by omega
      rcases h1314 with rfl | rfl
      · simp only [hwslen]
        exact hcw0
      · simp only [hwslen]
        exact hcw1
  -- run the validation
  refine ⟨_, hgen, ?_⟩
  unfold validatePhrase
  simp only []
  rw [hsplit]
  rw [if_neg (show ¬ (((seedToSeedWords entropy)
      ++ [(hashToChecksumWords (hashFn (seedWordsToSeedCore (seedToSeedWords entropy)))).getD 0 0,
          (hashToChecksumWords (hashFn (seedWordsToSeedCore (seedToSeedWords entropy)))).getD 1 0]).map
      (fun w => dict.getD w [])).length ≠ PHRASE_LENGTH by
    simp [hwslen, PHRASE_LENGTH])]
  rw [validateLoop_dictWords dict ⟨hdlen, hdwords, hdsorted⟩ _ 0 [] hidxlt]
  rw [show (13 : Nat) - 0 = 13 from rfl]
  rw [show ((seedToSeedWords entropy)
      ++ [(hashToChecksumWords (hashFn (seedWordsToSeedCore (seedToSeedWords entropy)))).getD 0 0,
          (hashToChecksumWords (hashFn (seedWordsToSeedCore (seedToSeedWords entropy)))).getD 1 0]).take 13
      = seedToSeedWords entropy by
    rw [show (13 : Nat) = (seedToSeedWords entropy).length from hwslen.symm]
    exact List.take_left _ _]
  rw [List.nil_append]
  show validateChecksum dict hashFn _ (seedToSeedWords entropy) = _
  unfold validateChecksum
  rw [if_neg (by rw [hwslen]; simp [SEED_WORDS_LENGTH])]
  simp only []
  have hW13 : (((seedToSeedWords entropy)
      ++ [(hashToChecksumWords (hashFn (seedWordsToSeedCore (seedToSeedWords entropy)))).getD 0 0,
          (hashToChecksumWords (hashFn (seedWordsToSeedCore (seedToSeedWords entropy)))).getD 1 0]).map
      (fun w => dict.getD w [])).getD (0 + SEED_WORDS_LENGTH) []
      = dict.getD ((hashToChecksumWords (hashFn (seedWordsToSeedCore (seedToSeedWords entropy)))).getD 0 0) [] := by
    rw [List.map_append]
    rw [show (0 + SEED_WORDS_LENGTH : Nat)
        = ((seedToSeedWords entropy).map (fun w => dict.getD w [])).length by
      rw [List.length_map, hwslen]; rfl]
    exact listGetD_midP _ _ _ []
  have hW14 : (((seedToSeedWords entropy)
      ++ [(hashToChecksumWords (hashFn (seedWordsToSeedCore (seedToSeedWords entropy)))).getD 0 0,
          (hashToChecksumWords (hashFn (seedWordsToSeedCore (seedToSeedWords entropy)))).getD 1 0]).map
      (fun w => dict.getD w [])).getD (1 + SEED_WORDS_LENGTH) []
      = dict.getD ((hashToChecksumWords (hashFn (seedWordsToSeedCore (seedToSeedWords entropy)))).getD 1 0) [] := by
    rw [List.map_append]
    rw [show ((seedToSeedWords entropy).map (fun w => dict.getD w []))
        ++ ([(hashToChecksumWords (hashFn (seedWordsToSeedCore (seedToSeedWords entropy)))).getD 0 0,
             (hashToChecksumWords (hashFn (seedWordsToSeedCore (seedToSeedWords entropy)))).getD 1 0].map
          (fun w => dict.getD w []))
        = (((seedToSeedWords entropy).map (fun w => dict.getD w []))
            ++ [dict.getD ((hashToChecksumWords (hashFn (seedWordsToSeedCore (seedToSeedWords entropy)))).getD 0 0) []])
          ++ (dict.getD ((hashToChecksumWords (hashFn (seedWordsToSeedCore (seedToSeedWords entropy)))).getD 1 0) [] :: []) by
      simp]
    rw [show (1 + SEED_WORDS_LENGTH : Nat)
        = (((seedToSeedWords entropy).map (fun w => dict.getD w []))
            ++ [dict.getD ((hashToChecksumWords (hashFn (seedWordsToSeedCore (seedToSeedWords entropy)))).getD 0 0) []]).length by
      rw [List.length_append, List.length_map, hwslen]; rfl]
    exact listGetD_midP _ _ _ []
  rw [hW13, hW14]
  rw [if_neg (fun hne => hne rfl), if_neg (fun hne => hne rfl)]
  have hseed : seedWordsToSeedCore (seedToSeedWords entropy) = entropy := by
    obtain ⟨hcc, _, _⟩ := seedWordsToSeedCore_spec (seedToSeedWords entropy)
    rw [hcc, seedWordsBits_seedToSeedWords entropy hlen,
      bitsToBytes_bytesToBits entropy hbytes]
  rw [hseed]

/-- C5: for every sequence of 13 seed words (the first 12 in [0, 1023], the
13th in [0, 255]), `seedWordsToSeed` packs them as consecutive
most-significant-bit-first groups of 10 bits each (8 for the last word) into
exactly 16 bytes, filling each byte from its most significant bit downward:
the concatenated 128-bit big-endian stream of the output bytes equals the
concatenated word bits in order. -/
theorem seedWordsToSeed_packing (ws : List Nat) (hlen : ws.length = 13)
    (hbound : ∀ i, i < 12 → ws.getD i 0 < 1024) (hlast : ws.getD 12 0 < 256) :
    ∃ seed, seedWordsToSeed ws = some seed ∧ seed.length = 16 ∧
      bytesToBits seed = seedWordsBits ws := by
  obtain ⟨hcore, hlen16, hbits⟩ := seedWordsToSeedCore_spec ws
  refine ⟨seedWordsToSeedCore ws, ?_, hlen16, hbits⟩
  unfold seedWordsToSeed
  rw [if_neg (by rw [hlen]; simp [SEED_WORDS_LENGTH])]

/-- Witness for C5 at the all-zero word list. -/
theorem seedWordsToSeed_packing_witness :
    ∃ seed, seedWordsToSeed (List.replicate 13 0) = some seed ∧ seed.length = 16 ∧
      bytesToBits seed = seedWordsBits (List.replicate 13 0) :=
  seedWordsToSeed_packing (List.replicate 13 0) (by decide) (by decide) (by decide)

theorem checkPermission_denied (env : MySkyEnv) (path : String) (category : PermCategory)
    (permType : PermType) (hload : env.providerLoaded = true)
    (hfail : 0 < (env.permResponse [permOf env path category permType]).length) :
    checkPermission env path category permType
      = (Except.error ("Permission was not granted: "
            ++ env.readable (permOf env path category permType)),
        [MySkyEvent.checkedPermissions [permOf env path category permType]]) := by
  unfold checkPermission
  rw [hload]
  rw [if_neg (by simp)]
  rw [if_pos hfail]

theorem checkPermission_granted (env : MySkyEnv) (path : String) (category : PermCategory)
    (permType : PermType) (hload : env.providerLoaded = true)
    (hgrant : env.permResponse [permOf env path category permType] = []) :
    checkPermission env path category permType
      = (Except.ok (), [MySkyEvent.checkedPermissions [permOf env path category permType]]) := by
  unfold checkPermission
  rw [hload]
  rw [if_neg (by simp)]
  rw [hgrant]
  rw [if_neg (by simp)]

/-- C2 (counterexample): in a granting environment with a stored seed,
`signEncryptedRegistryEntry` on an entry whose data key does not match fails
with the path-mismatch error, yet its trace contains a `checkedPermissions`
event: the Hidden/Read permission check is issued to the provider before
the data-key comparison, contradicting "on mismatch fail immediately ...
before any permission check is issued". -/
theorem signEncrypted_checksPermission_before_mismatch :
    (signEncryptedRegistryEntry cexEnv cexEntry "some/path").1
      = Except.error "Path does not match the data key in the encrypted registry entry." ∧
    MySkyEvent.checkedPermissions
        [permOf cexEnv "some/path" PermCategory.Hidden PermType.Read]
      ∈ (signEncryptedRegistryEntry cexEnv cexEntry "some/path").2 := by
  constructor
  · rfl
  · decide

/-- C2 (amended): `signRegistryEntry` (discoverable) does validate the data
key before anything else — on mismatch it fails with the path-mismatch
error and an empty trace, so before any permission check — but
`signEncryptedRegistryEntry` (hidden) first issues the Hidden/Read
permission check inside `getEncryptedPathSeed` and reads the seed, and only
then compares the data key: with permission granted and a seed present, a
mismatching entry fails with the path-mismatch error after the
`checkedPermissions`, seed-read and path-seed events. -/
theorem signRegistryEntry_mismatch_order (env : MySkyEnv) (entry : RegistryEntry)
    (path : String) (s : List Nat)
    (hmm1 : entry.dataKey ≠ env.discoverableTweak path)
    (hload : env.providerLoaded = true)
    (hgrant : env.permResponse [permOf env path PermCategory.Hidden PermType.Read] = [])
    (hseed : env.storedSeed = some s)
    (hmm2 : entry.dataKey ≠ env.encryptedTweak (env.pathSeedOf s path false)) :
    signRegistryEntry env entry path
      = (Except.error "Path does not match the data key in the registry entry.", []) ∧
    signEncryptedRegistryEntry env entry path
      = (Except.error "Path does not match the data key in the encrypted registry entry.",
        [MySkyEvent.checkedPermissions
            [permOf env path PermCategory.Hidden PermType.Read],
          MySkyEvent.readSeed, MySkyEvent.derivedPathSeed path]) := by
  constructor
  · unfold signRegistryEntry
    rw [if_pos hmm1]
  · have hgps : getEncryptedPathSeed env path false
        = (Except.ok (env.pathSeedOf s path false),
          [MySkyEvent.checkedPermissions
              [permOf env path PermCategory.Hidden PermType.Read],
            MySkyEvent.readSeed, MySkyEvent.derivedPathSeed path]) := by
      unfold getEncryptedPathSeed
      rw [checkPermission_granted env path PermCategory.Hidden PermType.Read hload hgrant,
        hseed]
      rfl
    unfold signEncryptedRegistryEntry
    rw [hgps]
    exact if_pos hmm2

/-- Witness for the amended C2 statement in the concrete granting
environment. -/
theorem signRegistryEntry_mismatch_order_witness :
    signRegistryEntry cexEnv cexEntry "some/path"
      = (Except.error "Path does not match the data key in the registry entry.", []) ∧
    signEncryptedRegistryEntry cexEnv cexEntry "some/path"
      = (Except.error "Path does not match the data key in the encrypted registry entry.",
        [MySkyEvent.checkedPermissions
            [permOf cexEnv "some/path" PermCategory.Hidden PermType.Read],
          MySkyEvent.readSeed, MySkyEvent.derivedPathSeed "some/path"]) :=
  signRegistryEntry_mismatch_order cexEnv cexEntry "some/path" [7]
    (by decide) rfl rfl rfl (by decide)

/-- C3: when the provider's response lists the requested permission in
`failedPermissions`, both `signRegistryEntryHelper` and
`getEncryptedPathSeed` fail with an error naming the permission in
human-readable form, and the trace holds only the permission-check event:
no seed read, no key-pair derivation, no signature, no path seed. -/
theorem permissionDenied_noSecrets (env : MySkyEnv) (entry : RegistryEntry)
    (path : String) (category : PermCategory)
    (hload : env.providerLoaded = true)
    (hfailW : permOf env path category PermType.Write
      ∈ env.permResponse [permOf env path category PermType.Write])
    (hfailR : permOf env path PermCategory.Hidden PermType.Read
      ∈ env.permResponse [permOf env path PermCategory.Hidden PermType.Read]) :
    signRegistryEntryHelper env entry path category
      = (Except.error ("Permission was not granted: "
            ++ env.readable (permOf env path category PermType.Write)),
        [MySkyEvent.checkedPermissions [permOf env path category PermType.Write]]) ∧
    getEncryptedPathSeed env path false
      = (Except.error ("Permission was not granted: "
            ++ env.readable (permOf env path PermCategory.Hidden PermType.Read)),
        [MySkyEvent.checkedPermissions
            [permOf env path PermCategory.Hidden PermType.Read]]) := by
  have hW : 0 < (env.permResponse [permOf env path category PermType.Write]).length :=
    List.length_pos.mpr (List.ne_nil_of_mem hfailW)
  have hR : 0 < (env.permResponse
      [permOf env path PermCategory.Hidden PermType.Read]).length :=
    List.length_pos.mpr (List.ne_nil_of_mem hfailR)
  constructor
  · unfold signRegistryEntryHelper
    rw [checkPermission_denied env path category PermType.Write hload hW]
  · unfold getEncryptedPathSeed
    rw [checkPermission_denied env path PermCategory.Hidden PermType.Read hload hR]

/-- Witness for C3 in the denying environment. -/
theorem permissionDenied_noSecrets_witness :
    signRegistryEntryHelper denyEnv cexEntry "p" PermCategory.Discoverable
      = (Except.error ("Permission was not granted: "
            ++ denyEnv.readable (permOf denyEnv "p" PermCategory.Discoverable PermType.Write)),
        [MySkyEvent.checkedPermissions
            [permOf denyEnv "p" PermCategory.Discoverable PermType.Write]]) ∧
    getEncryptedPathSeed denyEnv "p" false
      = (Except.error ("Permission was not granted: "
            ++ denyEnv.readable (permOf denyEnv "p" PermCategory.Hidden PermType.Read)),
        [MySkyEvent.checkedPermissions
            [permOf denyEnv "p" PermCategory.Hidden PermType.Read]]) :=
  permissionDenied_noSecrets denyEnv cexEntry "p" PermCategory.Discoverable rfl
    (List.Mem.head _) (List.Mem.head _)

/-- C8: `logout` clears the stored seed when one exists; it attempts the
server-side logout in every case, also when no seed was found; a 401
response from that request is swallowed and contributes no error; and all
other failures — including the already-logged-out condition — are
aggregated into one combined error thrown at the end. -/
theorem logout_spec (env : LogoutEnv) (s : List Nat) (st : Option Nat) (msg : String) :
    (env.storedSeed = some s → LogoutEvent.clearedSeed ∈ (logoutModel env).2) ∧
    LogoutEvent.serverLogoutAttempted ∈ (logoutModel env).2 ∧
    (env.storedSeed = some s → env.serverResult = some (some 401, msg) →
      (logoutModel env).1 = Except.ok ()) ∧
    (env.storedSeed = none → env.serverResult = some (st, msg) → st ≠ some 401 →
      (logoutModel env).1
        = Except.error (combinedLogoutError ["MySky user is already logged out", msg])) := by
  obtain ⟨seedF, serverF, origF⟩ := env
  refine ⟨?_, ?_, ?_, ?_⟩
  · intro hs
    subst hs
    simp [logoutModel]
  · cases seedF <;> simp [logoutModel]
  · intro hs hr
    subst hs
    subst hr
    simp [logoutModel]
  · intro hs hr hne
    subst hs
    subst hr
    simp only [logoutModel]
    rw [if_neg hne]
    simp [combinedLogoutError]

/-- Witness for C8: no stored seed and a non-401 server failure yield the
aggregated two-part error, with the server logout still attempted. -/
theorem logout_spec_witness :
    LogoutEvent.serverLogoutAttempted
      ∈ (logoutModel ⟨none, some (none, "network error"), false⟩).2 ∧
    (logoutModel ⟨none, some (none, "network error"), false⟩).1
      = Except.error (combinedLogoutError
          ["MySky user is already logged out", "network error"]) :=
  ⟨(logout_spec ⟨none, some (none, "network error"), false⟩ [] none "network error").2.1,
    (logout_spec ⟨none, some (none, "network error"), false⟩ [] none "network error").2.2.2
      rfl rfl (by decide)⟩

theorem splitOnChar_singleton (c : Char) : ∀ (s : List Char) (w : List Char),
    splitOnChar s c = [w] → w = s := by
  intro s
  induction s with
  | nil =>
    intro w h
    simp only [splitOnChar] at h
    exact (List.cons.injEq _ _ _ _ ▸ h).1.symm
  | cons a rest ih =>
    intro w h
    simp only [splitOnChar] at h
    cases hsp : splitOnChar rest c with
    | nil => exact absurd hsp (splitOnChar_ne_nil rest c)
    | cons w1 ws1 =>
      rw [hsp] at h
      simp only [] at h
      by_cases hac : a = c
      · rw [if_pos hac] at h
        simp at h
      · rw [if_neg hac] at h
        have h1 : a :: w1 = w := (List.cons.injEq _ _ _ _ ▸ h).1
        have h2 : ws1 = [] := (List.cons.injEq _ _ _ _ ▸ h).2
        have hw1 : w1 = rest := ih w1 (by rw [hsp, h2])
        rw [← h1, hw1]

theorem splitOnChar_subset (c : Char) : ∀ (s : List Char) (w : List Char),
    w ∈ splitOnChar s c → ∀ x ∈ w, x ∈ s := by
  intro s
  induction s with
  | nil =>
    intro w hw x hx
    simp [splitOnChar] at hw
    subst hw
    simp at hx
  | cons a rest ih =>
    intro w hw x hx
    simp only [splitOnChar] at hw
    cases hsp : splitOnChar rest c with
    | nil => exact absurd hsp (splitOnChar_ne_nil rest c)
    | cons w1 ws1 =>
      rw [hsp] at hw
      simp only [] at hw
      by_cases hac : a = c
      · rw [if_pos hac] at hw
        rcases List.mem_cons.mp hw with rfl | hmem
        · simp at hx
        · exact List.mem_cons_of_mem a (ih w (by rw [hsp]; exact hmem) x hx)
      · rw [if_neg hac] at hw
        rcases List.mem_cons.mp hw with rfl | hmem
        · rcases List.mem_cons.mp hx with rfl | hx2
          · exact List.mem_cons_self x rest
          · exact List.mem_cons_of_mem a
              (ih w1 (by rw [hsp]; exact List.mem_cons_self w1 ws1) x hx2)
        · exact List.mem_cons_of_mem a
            (ih w (by rw [hsp]; exact List.mem_cons_of_mem w1 hmem) x hx)

theorem list_pair_of_length_two {α : Type} (l : List α) (h : l.length = 2) :
    ∃ a b, l = [a, b] := by
  cases l with
  | nil => simp at h
  | cons a t =>
    cases t with
    | nil => simp at h
    | cons b t2 =>
      cases t2 with
      | nil => exact ⟨a, b, rfl⟩
      | cons d t3 => simp at h

theorem lastTwoLabels_ne_nil (h : List Char) (hne : h ≠ []) : lastTwoLabels h ≠ [] := by
  intro hnil
  unfold lastTwoLabels at hnil
  cases hsp : splitOnChar h '.' with
  | nil => exact splitOnChar_ne_nil h '.' hsp
  | cons w1 rest =>
    cases rest with
    | nil =>
      rw [hsp] at hnil
      have hw : w1 = h := splitOnChar_singleton '.' h w1 hsp
      rw [hw] at hnil
      simp [joinSep] at hnil
      exact hne hnil
    | cons w2 r2 =>
      rw [hsp] at hnil
      have hlen2 : ((w1 :: w2 :: r2).drop ((w1 :: w2 :: r2).length - 2)).length = 2 := by
        rw [List.length_drop]
        simp only [List.length_cons]
        omega
      obtain ⟨u, v, huv⟩ := list_pair_of_length_two _ hlen2
      rw [huv] at hnil
      rw [show joinSep '.' [u, v] = u ++ '.' :: v from rfl] at hnil
      simp at hnil

theorem mem_lastTwoLabels (h : List Char) (x : Char) (hx : x ∈ lastTwoLabels h) :
    x = '.' ∨ x ∈ h := by
  unfold lastTwoLabels at hx
  rcases mem_joinSep hx with h1 | ⟨w, hw, hxw⟩
  · exact Or.inl h1
  · exact Or.inr (splitOnChar_subset '.' h w (List.mem_of_mem_drop hw) x hxw)

theorem trimTrailingSlashes_closed (X : List Char) (hX : X ≠ [])
    (hlast : ∀ d, X.getLast? = some d → d ≠ '/') :
    trimTrailingSlashes (X ++ ['/']) = X := by
  unfold trimTrailingSlashes
  rw [List.reverse_append]
  rw [show (['/'] : List Char).reverse ++ X.reverse = '/' :: X.reverse by simp]
  rw [List.dropWhile_cons]
  rw [if_pos (by decide)]
  cases hXr : X.reverse with
  | nil => exact absurd (by simpa using congrArg List.reverse hXr) hX
  | cons a t =>
    have ha : X.getLast? = some a := by
      rw [← List.head?_reverse, hXr]
      rfl
    rw [List.dropWhile_cons]
    rw [if_neg (by simp [hlast a ha])]
    rw [← hXr, List.reverse_reverse]

/-- C9: `getPortalRecipient` returns the scheme, `://` and the last two
dot-separated labels of the hostname with no trailing slash; in particular
it maps `https://dev1.siasky.dev` to `https://siasky.dev` and
`https://siasky.net` to itself. -/
theorem getPortalRecipient_spec (u : UrlModel) (hne : u.hostname ≠ [])
    (hns : ('/' : Char) ∉ u.hostname) :
    getPortalRecipient u
        = u.scheme ++ (':' :: '/' :: '/' :: []) ++ lastTwoLabels u.hostname ∧
    getPortalRecipient ⟨"https".toList, "dev1.siasky.dev".toList⟩
        = "https://siasky.dev".toList ∧
    getPortalRecipient ⟨"https".toList, "siasky.net".toList⟩
        = "https://siasky.net".toList := by
  refine ⟨?_, by decide, by decide⟩
  unfold getPortalRecipient
  have hLne : lastTwoLabels u.hostname ≠ [] := lastTwoLabels_ne_nil u.hostname hne
  rw [show u.scheme ++ (':' :: '/' :: '/' :: []) ++ lastTwoLabels u.hostname ++ ['/']
      = (u.scheme ++ (':' :: '/' :: '/' :: []) ++ lastTwoLabels u.hostname) ++ ['/'] by
    simp]
  apply trimTrailingSlashes_closed
  · intro hc
    exact hLne (List.append_eq_nil.mp hc).2
  · intro d hd hdd
    rw [List.getLast?_append] at hd
    rcases hgl : (lastTwoLabels u.hostname).getLast? with _ | e
    · exact hLne (List.getLast?_eq_none_iff.mp hgl)
    · rw [hgl] at hd
      have hde : d = e := by
        have hx := hd
        simp [Option.or] at hx
        exact hx.symm
      subst hde
      subst hdd
      have hmem : ('/' : Char) ∈ lastTwoLabels u.hostname :=
        List.mem_of_mem_getLast? hgl
      rcases mem_lastTwoLabels u.hostname '/' hmem with h1 | h2
      · exact absurd h1 (by decide)
      · exact hns h2

/-- Witness for C9 with a three-label hostname. -/
theorem getPortalRecipient_spec_witness :
    getPortalRecipient ⟨"https".toList, "node.siasky.net".toList⟩
        = "https".toList ++ (':' :: '/' :: '/' :: [])
          ++ lastTwoLabels "node.siasky.net".toList ∧
    getPortalRecipient ⟨"https".toList, "dev1.siasky.dev".toList⟩
        = "https://siasky.dev".toList ∧
    getPortalRecipient ⟨"https".toList, "siasky.net".toList⟩
        = "https://siasky.net".toList :=
  getPortalRecipient_spec ⟨"https".toList, "node.siasky.net".toList⟩
    (by decide) (by decide)

theorem strLt_trans : ∀ (a b c : List Char),
    strLt a b = true → strLt b c = true → strLt a c = true := by
  intro a
  induction a with
  | nil =>
    intro b c hab hbc
    cases c with
    | nil =>
      cases b with
      | nil => exact hab
      | cons bh bt => simp [strLt] at hbc
    | cons ch ct => simp [strLt]
  | cons ah atl ih =>
    intro b c hab hbc
    cases b with
    | nil => simp [strLt] at hab
    | cons bh bt =>
      cases c with
      | nil => simp [strLt] at hbc
      | cons ch ct =>
        simp only [strLt] at hab hbc ⊢
        by_cases h1 : ah.toNat < bh.toNat
        · by_cases h3 : bh.toNat < ch.toNat
          · rw [if_pos (show ah.toNat < ch.toNat by omega)]
          · rw [if_neg h3] at hbc
            by_cases h4 : ch.toNat < bh.toNat
            · rw [if_pos h4] at hbc
              exact absurd hbc (by simp)
            · rw [if_pos (show ah.toNat < ch.toNat by omega)]
        · rw [if_neg h1] at hab
          by_cases h2 : bh.toNat < ah.toNat
          · rw [if_pos h2] at hab
            exact absurd hab (by simp)
          · rw [if_neg h2] at hab
            by_cases h3 : bh.toNat < ch.toNat
            · rw [if_pos (show ah.toNat < ch.toNat by omega)]
            · rw [if_neg h3] at hbc
              by_cases h4 : ch.toNat < bh.toNat
              · rw [if_pos h4] at hbc
                exact absurd hbc (by simp)
              · rw [if_neg h4] at hbc
                rw [if_neg (show ¬ ah.toNat < ch.toNat by omega),
                  if_neg (show ¬ ch.toNat < ah.toNat by omega)]
                exact ih bt ct hab hbc

theorem charOfNat_toNat : ∀ d, d < 26 → (Char.ofNat (97 + d)).toNat = 97 + d := by
  decide

theorem witnessChar_ok : ∀ d, d < 26 →
    (Char.ofNat (97 + d)).toLower = Char.ofNat (97 + d) ∧
    isWhitespaceChar (Char.ofNat (97 + d)) = false := by
  decide

theorem witnessWord_strLt (i j : Nat) (hi : i < 1024) (hj : j < 1024) (hij : i < j) :
    strLt (prefix3 (witnessWord i)) (prefix3 (witnessWord j)) = true := by
  rw [show prefix3 (witnessWord i) = witnessWord i from rfl,
    show prefix3 (witnessWord j) = witnessWord j from rfl]
  simp only [witnessWord]
  simp only [strLt]
  rw [charOfNat_toNat (i / 676) (by omega), charOfNat_toNat (j / 676) (by omega),
    charOfNat_toNat (i / 26 % 26) (by omega), charOfNat_toNat (j / 26 % 26) (by omega),
    charOfNat_toNat (i % 26) (by omega), charOfNat_toNat (j % 26) (by omega)]
  by_cases h1 : i / 676 < j / 676
  · rw [if_pos (show 97 + i / 676 < 97 + j / 676 by omega)]
  · rw [if_neg (show ¬ 97 + i / 676 < 97 + j / 676 by omega),
      if_neg (show ¬ 97 + j / 676 < 97 + i / 676 by omega)]
    by_cases h2 : i / 26 % 26 < j / 26 % 26
    · rw [if_pos (show 97 + i / 26 % 26 < 97 + j / 26 % 26 by omega)]
    · rw [if_neg (show ¬ 97 + i / 26 % 26 < 97 + j / 26 % 26 by omega),
        if_neg (show ¬ 97 + j / 26 % 26 < 97 + i / 26 % 26 by omega)]
      rw [if_pos (show 97 + i % 26 < 97 + j % 26 by omega)]

theorem witnessDict_sorted :
    List.Pairwise (fun a b => strLt (prefix3 a) (prefix3 b) = true) witnessDict := by
  rw [show witnessDict = (List.range 1024).map witnessWord from rfl]
  rw [List.pairwise_map]
  refine (List.pairwise_lt_range 1024).imp_of_mem ?_
  intro a b ha hb hab
  exact witnessWord_strLt a b (List.mem_range.mp ha) (List.mem_range.mp hb) hab

theorem witnessDict_getD (k : Nat) (hk : k < 1024) :
    witnessDict.getD k [] = witnessWord k := by
  rw [show witnessDict = (List.range 1024).map witnessWord from rfl]
  exact getD_range_map witnessWord [] 1024 k hk

theorem witnessDict_valid : DictValid witnessDict := by
  refine ⟨by simp [witnessDict], ?_, witnessDict_sorted⟩
  intro w hw
  rw [show witnessDict = (List.range 1024).map witnessWord from rfl] at hw
  obtain ⟨i, hi, rfl⟩ := List.mem_map.mp hw
  have hi2 := List.mem_range.mp hi
  refine ⟨by simp [witnessWord], ?_⟩
  intro c hc
  simp only [witnessWord, List.mem_cons, List.not_mem_nil, or_false] at hc
  rcases hc with rfl | rfl | rfl
  · exact witnessChar_ok (i / 676) (by omega)
  · exact witnessChar_ok (i / 26 % 26) (by omega)
  · exact witnessChar_ok (i % 26) (by omega)

theorem witnessHash_valid : HashValid witnessHash := by
  intro s
  refine ⟨by simp [witnessHash], ?_⟩
  intro b hb
  simp [witnessHash] at hb
  omega

/-- Witness for C4 at the all-zero digest. -/
theorem hashToChecksumWords_spec_witness :
    hashToChecksumWords (List.replicate 64 0) =
      [bitsToNat ((bytesToBits (List.replicate 64 0)).take 10),
       bitsToNat (((bytesToBits (List.replicate 64 0)).drop 10).take 10)] ∧
    ∀ w ∈ hashToChecksumWords (List.replicate 64 0), w < 1024 :=
  hashToChecksumWords_spec (List.replicate 64 0) (by decide) (by decide)

/-- Witness for C6 on a small sorted dictionary with bound 2. -/
theorem earlyExitScan_eq_exhaustive_witness :
    findPrefixIdx ["abc".toList, "abd".toList, "baa".toList] "abd".toList 2
      = findPrefixSpecIdx ["abc".toList, "abd".toList, "baa".toList] "abd".toList 2 :=
  earlyExitScan_eq_exhaustive ["abc".toList, "abd".toList, "baa".toList] "abd".toList 2
    (by decide) (by decide)

/-- Witness for C10: two one-word phrases sharing the 3-letter word prefix. -/
theorem validatePhrase_prefixInvariance_witness :
    (validatePhrase witnessDict witnessHash "aaa".toList).1
      = (validatePhrase witnessDict witnessHash "aaax".toList).1 ∧
    (validatePhrase witnessDict witnessHash "aaa".toList).2.2
      = (validatePhrase witnessDict witnessHash "aaax".toList).2.2 :=
  validatePhrase_prefixInvariance witnessDict witnessHash "aaa".toList "aaax".toList
    (by decide) (by decide)

/-- Witness for C1 at the all-zero entropy with the witness dictionary and
digest. -/
theorem generatePhrase_roundTrip_witness :
    ∃ phrase, generatePhrase witnessDict witnessHash
        (seedToSeedWords (List.replicate 16 0)) = some phrase ∧
      validatePhrase witnessDict witnessHash phrase
        = (true, "", some (List.replicate 16 0)) :=
  generatePhrase_roundTrip witnessDict witnessHash (List.replicate 16 0)
    witnessDict_valid witnessHash_valid (by decide) (by decide)

/-- Witness for C7: a 15-word phrase whose 13th word prefix `alo` only
occurs in the witness dictionary at index 300. -/
theorem validatePhrase_first256_witness :
    validatePhrase witnessDict witnessHash
        ("aaa aaa aaa aaa aaa aaa aaa aaa aaa aaa aaa aaa alo aaa aaa".toList)
      = (false, "Prefix for word 13 must be found in the first 256 words of the dictionary",
         none) :=
  validatePhrase_first256 witnessDict witnessHash
    ("aaa aaa aaa aaa aaa aaa aaa aaa aaa aaa aaa aaa alo aaa aaa".toList)
    (List.replicate 12 ("aaa".toList)) ("alo".toList) ("aaa".toList) ("aaa".toList)
    (by decide) (by decide)
    (by
      intro k hk
      have hgd : (List.replicate 12 ("aaa".toList)).getD k [] = "aaa".toList := by
        rw [List.getD_eq_getElem _ _ hk]
        apply List.getElem_replicate
      rw [hgd]
      refine ⟨by decide, ?_⟩
      have hpr : prefix3 ("aaa".toList) = prefix3 (witnessDict.getD 0 []) := by
        rw [witnessDict_getD 0 (by omega)]
        decide
      rw [hpr]
      rw [show findPrefixIdx witnessDict (prefix3 (witnessDict.getD 0 []))
          witnessDict.length
          = findPrefixFrom witnessDict (prefix3 (witnessDict.getD 0 []))
            witnessDict.length 0 from rfl]
      rw [findPrefixFrom_self witnessDict 0 witnessDict.length witnessDict_sorted
        (by simp [witnessDict]) Nat.le.refl 0 0 (by omega) (by omega)]
      rfl)
    (by decide)
    (by
      intro k hk heq
      rw [witnessDict_getD k (by omega)] at heq
      rw [show prefix3 (witnessWord k) = witnessWord k from rfl] at heq
      rw [show prefix3 ("alo".toList)
          = [Char.ofNat 97, Char.ofNat 108, Char.ofNat 111] from by decide] at heq
      simp only [witnessWord, List.cons.injEq, and_true] at heq
      have h3 := congrArg Char.toNat heq.2.1
      rw [charOfNat_toNat (k / 26 % 26) (by omega)] at h3
      rw [show (Char.ofNat 108).toNat = 108 from by decide] at h3
      omega)
    ⟨300, by omega,
      by rw [show witnessDict.length = 1024 from by simp [witnessDict]]; omega,
      by rw [witnessDict_getD 300 (by omega)]; decide⟩
